import Mathlib

/-!
# GrepCode: a shallow embedding of `grepCode.go` and its verified properties

The Go program walks a directory tree, filters files by extension, scans each
accepted file line by line with a compiled pattern and keeps a bounded buffer of
preceding non-matching lines.

Conventions of the embedding

* The package-level flag variables (`searchPattern`, `showContext`, ...) are the
  fields of an explicit `Config` value.
* Library code that is not part of the program is a field of `Lib`:
  `regexp.Compile`, `filepath.Join` and the three `color` sprint functions.
* What `regexp` computes is modelled on a fragment of its syntax
  (`fragmentMatcher`: literals, escaped punctuation, `.`, a leading `(?i)`);
  the theorems about matching hold for every library that agrees with it there
  (`AgreesOnFragment`).
* A Go `error` is a `GoError`; `nil` is `none`.
* A run-time panic (nil pointer dereference) is `Except.error`.
* Go strings are Lean strings (sequences of code points).  Counters are `Nat`:
  they only ever grow by one per line read, so the 64-bit bound is out of reach.
  `showContext` is an `Int`, since the flag accepts negative numbers.
* The file system is a value: what `os.Lstat`, `os.ReadDir`, `os.Open` and the
  `bufio.Scanner` would report for each entry.
-/

namespace GrepCode

/-! ## Data model -/

/-- Flag variables of the program (`var ( ... )` block, set by `initFlags`). -/
structure Config where
  searchPattern : String
  searchDir : String
  caseSensitive : Bool
  useRegex : Bool
  fileExtensions : String
  showContext : Int
  showStats : Bool
  excludeDirs : String

/-- Go `error` values.  `SkipDir` and `SkipAll` are the sentinels of `io/fs`. -/
inductive GoError where
  | SkipDir
  | SkipAll
  | other (msg : String)
deriving DecidableEq, Repr

/-- A run-time panic. -/
inductive Panic where
  | nilDereference
deriving DecidableEq, Repr

/-- `type SearchResult struct`. -/
structure SearchResult where
  File : String
  Line : Nat
  Content : String
  Context : List String
  IsMatch : Bool
deriving DecidableEq, Repr

/-- `type SearchStats struct`. -/
structure SearchStats where
  FilesScanned : Nat
  MatchesFound : Nat
  TotalLines : Nat
deriving DecidableEq, Repr

/-- A compiled `*regexp.Regexp`, seen through its only used method. -/
structure Regexp where
  MatchString : String → Bool

/-- `type CodeSearcher struct`.  The two maps are sets of keys; `pattern` is a
pointer and may be nil. -/
structure CodeSearcher where
  fileFilter : List String
  excludeFilter : List String
  pattern : Option Regexp

/-- Library functions the program calls. -/
structure Lib where
  /-- `regexp.Compile`. -/
  Compile : String → Except GoError Regexp
  /-- `filepath.Join` of a directory path and an entry name. -/
  Join : String → String → String
  /-- `color.New(color.FgYellow).SprintFunc()` applied to printed text. -/
  lineNumColor : String → String
  /-- `color.New(color.FgRed).SprintFunc()`. -/
  matchColor : String → String
  /-- `color.New(color.FgWhite).SprintFunc()`. -/
  normalColor : String → String

/-- What the program observes of one non-directory entry: whether `os.Open`
fails, the lines the scanner yields, and what `scanner.Err()` reports after the
last of them. -/
structure FileData where
  openErr : Option GoError
  lines : List String
  scanErr : Option GoError
deriving DecidableEq, Repr

/-- A directory entry as `WalkDir` sees it: a non-directory, or a directory
with the entries `os.ReadDir` returns (in its order) and the error it returns
with them. -/
inductive Entry where
  | file (name : String) (data : FileData)
  | dir (name : String) (listing : List Entry) (readDirErr : Option GoError)

/-- `d.Name()`. -/
def Entry.Name : Entry → String
  | .file name _ => name
  | .dir name _ _ => name

/-- `d.IsDir()`. -/
def Entry.IsDir : Entry → Bool
  | .file _ _ => false
  | .dir _ _ _ => true

/-! ## Strings -/

/-- `unicode.IsSpace`. -/
def isSpace (c : Char) : Bool :=
  let n := c.toNat
  n = 0x09 || n = 0x0A || n = 0x0B || n = 0x0C || n = 0x0D || n = 0x20 ||
  n = 0x85 || n = 0xA0 || n = 0x1680 || (0x2000 ≤ n && n ≤ 0x200A) ||
  n = 0x2028 || n = 0x2029 || n = 0x202F || n = 0x205F || n = 0x3000

/-- `strings.TrimSpace` on the characters of a string. -/
def trimSpaceChars (s : List Char) : List Char :=
  ((s.dropWhile isSpace).reverse.dropWhile isSpace).reverse

/-- `strings.TrimSpace`. -/
def TrimSpace (s : String) : String :=
  String.mk (trimSpaceChars s.data)

/-- `strings.Split(s, ",")` on characters: the pieces between commas; `cur` is
the piece being read, reversed. -/
def splitCommaAux : List Char → List Char → List (List Char)
  | [], cur => [cur.reverse]
  | c :: rest, cur =>
    if c = ',' then cur.reverse :: splitCommaAux rest [] else splitCommaAux rest (c :: cur)

/-- `strings.Split(s, ",")`. -/
def SplitComma (s : String) : List String :=
  (splitCommaAux s.data []).map String.mk

/-- `fmt.Sprint` of a non-negative `int`. -/
def Sprint (n : Nat) : String :=
  Nat.repr n

/-- Inserting a key into a `map[string]struct{}`. -/
def setInsert (m : List String) (k : String) : List String :=
  if k ∈ m then m else m ++ [k]

/-! ## Result assembly -/

/-- `SearchResult.formatLine`. -/
def formatLine (lib : Lib) (sr : SearchResult) : String :=
  let formatted := if sr.IsMatch then lib.matchColor sr.Content else lib.normalColor sr.Content
  lib.lineNumColor (Sprint sr.Line) ++ " " ++ formatted

/-- The record `SearchResult{Content: ctxLine, IsMatch: false}` that `createResult`
builds for a context line: the remaining fields have their zero value. -/
def contextRecord (ctxLine : String) : SearchResult :=
  { File := "", Line := 0, Content := ctxLine, Context := [], IsMatch := false }

/-- `CodeSearcher.createResult`. -/
def createResult (cfg : Config) (lib : Lib) (path line : String) (lineNum : Nat)
    (context : List String) : SearchResult :=
  let result : SearchResult :=
    { File := path, Line := lineNum, Content := line, Context := [], IsMatch := true }
  if cfg.showContext > 0 then
    let contextLines := context.map (fun ctxLine => formatLine lib (contextRecord ctxLine))
    { result with Context := contextLines ++ [formatLine lib result] }
  else
    result

/-! ## Line scanner -/

/-- The local variables of the loop of `searchFile`. -/
structure ScanState where
  results : List SearchResult
  stats : SearchStats
  contextBuffer : List String
  lineNumber : Nat
deriving DecidableEq, Repr

/-- `cs.pattern.MatchString(line)`: panics on a nil pattern. -/
def matchLine (cs : CodeSearcher) (line : String) : Except Panic Bool :=
  match cs.pattern with
  | none => .error .nilDereference
  | some re => .ok (re.MatchString line)

/-- One iteration of `for scanner.Scan()` in `searchFile`. -/
def scanStep (cfg : Config) (lib : Lib) (cs : CodeSearcher) (path : String)
    (st : ScanState) (line : String) : Except Panic ScanState :=
  let lineNumber := st.lineNumber + 1
  let stats := { st.stats with TotalLines := st.stats.TotalLines + 1 }
  match matchLine cs line with
  | .error p => .error p
  | .ok true =>
    let result := createResult cfg lib path line lineNumber st.contextBuffer
    .ok { results := st.results ++ [result], stats := stats, contextBuffer := [],
          lineNumber := lineNumber }
  | .ok false =>
    if cfg.showContext > 0 then
      let contextBuffer :=
        if (st.contextBuffer.length : Int) ≥ cfg.showContext then st.contextBuffer.drop 1
        else st.contextBuffer
      .ok { results := st.results, stats := stats, contextBuffer := contextBuffer ++ [line],
            lineNumber := lineNumber }
    else
      .ok { results := st.results, stats := stats, contextBuffer := st.contextBuffer,
            lineNumber := lineNumber }

/-- The loop of `searchFile` over the lines the scanner yields. -/
def scanLines (cfg : Config) (lib : Lib) (cs : CodeSearcher) (path : String) :
    ScanState → List String → Except Panic ScanState
  | st, [] => .ok st
  | st, line :: rest =>
    match scanStep cfg lib cs path st line with
    | .error p => .error p
    | .ok st1 => scanLines cfg lib cs path st1 rest

/-- The state of the loop of `searchFile` before the first line. -/
def scanInit : ScanState :=
  { results := [], stats := ⟨0, 0, 0⟩, contextBuffer := [], lineNumber := 0 }

/-- `CodeSearcher.searchFile`, on the observable behaviour of the file at `path`. -/
def searchFile (cfg : Config) (lib : Lib) (cs : CodeSearcher) (path : String)
    (data : FileData) : Except Panic (List SearchResult × SearchStats × Option GoError) :=
  match data.openErr with
  | some err => .ok ([], ⟨0, 0, 0⟩, some err)
  | none =>
    match scanLines cfg lib cs path scanInit data.lines with
    | .error p => .error p
    | .ok st => .ok (st.results, st.stats, data.scanErr)

/-! ## Searcher construction -/

/-- The bytes `regexp.QuoteMeta` escapes. -/
def specialBytes : List Char :=
  ['\\', '.', '+', '*', '?', '(', ')', '|', '[', ']', Char.ofNat 123, Char.ofNat 125, '^', '$']

/-- `regexp.QuoteMeta`. -/
def QuoteMeta (s : String) : String :=
  String.mk (s.data.flatMap (fun c => if c ∈ specialBytes then ['\\', c] else [c]))

/-- The first half of `initFilters`: the extension allow-list. -/
def initFileFilter (cfg : Config) : List String :=
  if cfg.fileExtensions ≠ "" then
    (SplitComma cfg.fileExtensions).foldl (fun m ext => setInsert m ("." ++ TrimSpace ext)) []
  else
    []

/-- The second half of `initFilters`: the directory exclude-set. -/
def initExcludeFilter (cfg : Config) : List String :=
  if cfg.excludeDirs ≠ "" then
    (SplitComma cfg.excludeDirs).foldl (fun m dir => setInsert m (TrimSpace dir)) []
  else
    []

/-- `CodeSearcher.initFilters`. -/
def initFilters (cfg : Config) (cs : CodeSearcher) : CodeSearcher :=
  { cs with fileFilter := initFileFilter cfg, excludeFilter := initExcludeFilter cfg }

/-- The expression `compilePattern` hands to `regexp.Compile`. -/
def patternExpr (cfg : Config) : String :=
  let pattern := if !cfg.useRegex then QuoteMeta cfg.searchPattern else cfg.searchPattern
  if !cfg.caseSensitive then "(?i)" ++ pattern else pattern

/-- `CodeSearcher.compilePattern`: the updated searcher and the returned error.
`regexp.Compile` returns a nil pointer together with a non-nil error. -/
def compilePattern (cfg : Config) (lib : Lib) (cs : CodeSearcher) :
    CodeSearcher × Option GoError :=
  match lib.Compile (patternExpr cfg) with
  | .ok re => ({ cs with pattern := some re }, none)
  | .error err => ({ cs with pattern := none }, some err)

/-- `NewCodeSearcher`: the error returned by `compilePattern` is dropped. -/
def NewCodeSearcher (cfg : Config) (lib : Lib) : CodeSearcher :=
  let cs : CodeSearcher := { fileFilter := [], excludeFilter := [], pattern := none }
  let cs := initFilters cfg cs
  (compilePattern cfg lib cs).1

/-! ## File filter -/

/-- The loop of `filepath.Ext`, from the last character backwards; `acc` holds
the characters already passed. -/
def extAux : List Char → List Char → List Char
  | [], _ => []
  | c :: rest, acc =>
    if c = '/' then [] else if c = '.' then '.' :: acc else extAux rest (c :: acc)

/-- `filepath.Ext` (with `/` as the path separator). -/
def Ext (path : String) : String :=
  String.mk (extAux path.data.reverse [])

/-- `CodeSearcher.isValidFile`. -/
def isValidFile (cs : CodeSearcher) (path : String) : Bool :=
  if cs.fileFilter.length = 0 then true
  else decide (Ext path ∈ cs.fileFilter)

/-! ## Tree walker -/

/-- `fs.WalkDirFunc`, with the state the closure captures passed explicitly.
The `DirEntry` argument is nil when `os.Lstat` of the root failed. -/
abbrev WalkDirFunc (σ : Type) :=
  String → Option Entry → Option GoError → σ → Except Panic (σ × Option GoError)

/-- The test `if err == SkipDir && d.IsDir() { err = nil }` of `walkDir`, for a
directory `d`. -/
def skipDirToNil (err : GoError) : Option GoError :=
  if err = .SkipDir then none else some err

mutual
/-- `filepath.walkDir`. -/
def walkDir {σ : Type} (join : String → String → String) (fn : WalkDirFunc σ)
    (path : String) (d : Entry) (s : σ) : Except Panic (σ × Option GoError) :=
  match d with
  | .file name data => fn path (some (.file name data)) none s
  | .dir name listing readDirErr =>
    match fn path (some (.dir name listing readDirErr)) none s with
    | .error p => .error p
    | .ok (s1, some err) => .ok (s1, skipDirToNil err)
    | .ok (s1, none) =>
      match readDirErr with
      | some rerr =>
        match fn path (some (.dir name listing readDirErr)) (some rerr) s1 with
        | .error p => .error p
        | .ok (s2, some err) => .ok (s2, skipDirToNil err)
        | .ok (s2, none) => walkDirs join fn path listing s2
      | none => walkDirs join fn path listing s1
/-- The loop `for _, d1 := range dirs` of `filepath.walkDir`. -/
def walkDirs {σ : Type} (join : String → String → String) (fn : WalkDirFunc σ)
    (path : String) (dirs : List Entry) (s : σ) : Except Panic (σ × Option GoError) :=
  match dirs with
  | [] => .ok (s, none)
  | d1 :: rest =>
    match walkDir join fn (join path d1.Name) d1 s with
    | .error p => .error p
    | .ok (s1, some err) => if err = .SkipDir then .ok (s1, none) else .ok (s1, some err)
    | .ok (s1, none) => walkDirs join fn path rest s1
end

/-- `filepath.WalkDir`; `lstat` is the outcome of `os.Lstat(root)`. -/
def WalkDir {σ : Type} (join : String → String → String) (fn : WalkDirFunc σ)
    (root : String) (lstat : Except GoError Entry) (s : σ) :
    Except Panic (σ × Option GoError) :=
  let r :=
    match lstat with
    | .error err => fn root none (some err) s
    | .ok info => walkDir join fn root info s
  match r with
  | .error p => .error p
  | .ok (s1, some err) =>
    if err = .SkipDir ∨ err = .SkipAll then .ok (s1, none) else .ok (s1, some err)
  | .ok (s1, none) => .ok (s1, none)

/-- The closure `Search` passes to `filepath.WalkDir`; the captured `results`
and `stats` are the state. -/
def searchCallback (cfg : Config) (lib : Lib) (cs : CodeSearcher) :
    WalkDirFunc (List SearchResult × SearchStats) :=
  fun path d err st =>
    match err with
    | some _ => .ok (st, none)
    | none =>
      match d with
      | none => .error .nilDereference
      | some (.dir name _ _) =>
        if name ∈ cs.excludeFilter then .ok (st, some .SkipDir) else .ok (st, none)
      | some (.file _ data) =>
        if !isValidFile cs path then .ok (st, none)
        else
          match searchFile cfg lib cs path data with
          | .error p => .error p
          | .ok (_, _, some _) => .ok (st, none)
          | .ok (fileResults, fileStats, none) =>
            .ok ((st.1 ++ fileResults,
                  { FilesScanned := st.2.FilesScanned + 1,
                    MatchesFound := st.2.MatchesFound + fileResults.length,
                    TotalLines := st.2.TotalLines + fileStats.TotalLines }), none)

/-- `CodeSearcher.Search`; `root` is the outcome of `os.Lstat(searchDir)`. -/
def Search (cfg : Config) (lib : Lib) (cs : CodeSearcher) (root : Except GoError Entry) :
    Except Panic (List SearchResult × SearchStats × Option GoError) :=
  match WalkDir lib.Join (searchCallback cfg lib cs) cfg.searchDir root ([], ⟨0, 0, 0⟩) with
  | .error p => .error p
  | .ok ((results, stats), err) => .ok (results, stats, err)

/-- The exit status of `main`: 1 when the pattern is missing or `Search`
returns an error, 0 when the results are printed. -/
def mainExitStatus (cfg : Config) (lib : Lib) (root : Except GoError Entry) :
    Except Panic Nat :=
  if cfg.searchPattern = "" then .ok 1
  else
    match Search cfg lib (NewCodeSearcher cfg lib) root with
    | .error p => .error p
    | .ok (_, _, some _) => .ok 1
    | .ok (_, _, none) => .ok 0

/-! ## Specification-side descriptions -/

/-- The trailing run of non-matching lines of a prefix of a file. -/
def trailingRun (m : String → Bool) (pre : List String) : List String :=
  (pre.reverse.takeWhile (fun l => !m l)).reverse

/-- The last `k` elements of a list. -/
def lastN (k : Nat) (xs : List String) : List String :=
  xs.drop (xs.length - k)

/-- The context buffer after the lines `pre` of a file have been processed, as
the data model describes it: the last `N` lines that did not match since the
last match, and nothing when context is disabled. -/
def bufferAfter (N : Int) (m : String → Bool) (pre : List String) : List String :=
  if N > 0 then lastN N.toNat (trailingRun m pre) else []

/-- One result per matching line of `lines`, in file order: line `i + 1` gets the
record `createResult` builds from the buffer left by the `i` lines before it. -/
def expectedResults (cfg : Config) (lib : Lib) (m : String → Bool) (path : String)
    (lines : List String) : List SearchResult :=
  (List.range lines.length).filterMap (fun i =>
    if m (lines.getD i "") then
      some (createResult cfg lib path (lines.getD i "") (i + 1)
        (bufferAfter cfg.showContext m (lines.take i)))
    else none)

/-- The state of the loop after the lines `pre`, for a compiled pattern. -/
def stateAfter (cfg : Config) (lib : Lib) (m : String → Bool) (path : String)
    (pre : List String) : ScanState :=
  { results := expectedResults cfg lib m path pre,
    stats := ⟨0, 0, pre.length⟩,
    contextBuffer := bufferAfter cfg.showContext m pre,
    lineNumber := pre.length }

mutual
/-- The non-directory entries the walk reaches below `d`, with their paths, in
traversal order: everything except what lies in a directory whose name is in
`excl`. -/
def reachedFiles (join : String → String → String) (excl : List String) (path : String) :
    Entry → List (String × FileData)
  | .file _ data => [(path, data)]
  | .dir name listing _ =>
    if name ∈ excl then [] else reachedFilesList join excl path listing
/-- The entries reached in a directory listing. -/
def reachedFilesList (join : String → String → String) (excl : List String) (path : String) :
    List Entry → List (String × FileData)
  | [] => []
  | d :: rest =>
    reachedFiles join excl (join path d.Name) d ++ reachedFilesList join excl path rest
end

/-- The records `searchFile` returns for a file. -/
def searchFileResults (cfg : Config) (lib : Lib) (cs : CodeSearcher)
    (f : String × FileData) : List SearchResult :=
  match searchFile cfg lib cs f.1 f.2 with
  | .ok (rs, _, _) => rs
  | .error _ => []

/-- The line count `searchFile` returns for a file. -/
def searchFileLines (cfg : Config) (lib : Lib) (cs : CodeSearcher)
    (f : String × FileData) : Nat :=
  match searchFile cfg lib cs f.1 f.2 with
  | .ok (_, stats, _) => stats.TotalLines
  | .error _ => 0

/-- Whether `searchFile` returns a nil error for a file. -/
def scansCleanly (cfg : Config) (lib : Lib) (cs : CodeSearcher)
    (f : String × FileData) : Bool :=
  match searchFile cfg lib cs f.1 f.2 with
  | .ok (_, _, none) => true
  | _ => false

/-- Whether a reached file counts as scanned: the extension filter accepts its
path and `searchFile` returns a nil error for it. -/
def isScanned (cfg : Config) (lib : Lib) (cs : CodeSearcher) (f : String × FileData) : Bool :=
  isValidFile cs f.1 && scansCleanly cfg lib cs f

/-- Whether scanning a reached file panics: the extension filter accepts its
path and `searchFile` does not return. -/
def panicsOn (cfg : Config) (lib : Lib) (cs : CodeSearcher) (f : String × FileData) : Bool :=
  isValidFile cs f.1 &&
    (match searchFile cfg lib cs f.1 f.2 with
      | .error _ => true
      | .ok _ => false)

/-- The scanned files of a tree, in traversal order: reached, accepted by the
extension filter, and read without error. -/
def scannedFiles (cfg : Config) (lib : Lib) (cs : CodeSearcher) (t : Entry) :
    List (String × FileData) :=
  (reachedFiles lib.Join cs.excludeFilter cfg.searchDir t).filter (isScanned cfg lib cs)

/-- The effect on `results` and `stats` of one scanned file. -/
def absorb (cfg : Config) (lib : Lib) (cs : CodeSearcher)
    (st : List SearchResult × SearchStats) (f : String × FileData) :
    List SearchResult × SearchStats :=
  (st.1 ++ searchFileResults cfg lib cs f,
   { FilesScanned := st.2.FilesScanned + 1,
     MatchesFound := st.2.MatchesFound + (searchFileResults cfg lib cs f).length,
     TotalLines := st.2.TotalLines + searchFileLines cfg lib cs f })

mutual
/-- Every non-directory entry of a tree with its path, in traversal order,
whatever the exclude-set. -/
def allFiles (join : String → String → String) (path : String) :
    Entry → List (String × FileData)
  | .file _ data => [(path, data)]
  | .dir _ listing _ => allFilesList join path listing
/-- Every non-directory entry below a directory listing. -/
def allFilesList (join : String → String → String) (path : String) :
    List Entry → List (String × FileData)
  | [] => []
  | d :: rest => allFiles join (join path d.Name) d ++ allFilesList join path rest
end

/-- The scanned files of a search: those of the root entry, and none when
`os.Lstat` of the root fails. -/
def scannedAt (cfg : Config) (lib : Lib) (cs : CodeSearcher) :
    Except GoError Entry → List (String × FileData)
  | .error _ => []
  | .ok t => scannedFiles cfg lib cs t

mutual
/-- The tree with every directory whose name is in `excl` removed, at any
depth; nothing is left when the entry itself is such a directory. -/
def pruneEntry (excl : List String) : Entry → Option Entry
  | .file name data => some (.file name data)
  | .dir name listing e =>
    if name ∈ excl then none else some (.dir name (pruneList excl listing) e)
/-- A directory listing with the excluded directories removed, at any depth. -/
def pruneList (excl : List String) : List Entry → List Entry
  | [] => []
  | d :: rest =>
    match pruneEntry excl d with
    | none => pruneList excl rest
    | some d1 => d1 :: pruneList excl rest
end

mutual
/-- Whether a tree holds a directory whose name is in `excl`. -/
def hasExcludedDir (excl : List String) : Entry → Bool
  | .file _ _ => false
  | .dir name listing _ => decide (name ∈ excl) || hasExcludedDirList excl listing
/-- Whether a listing holds, at any depth, a directory whose name is in `excl`. -/
def hasExcludedDirList (excl : List String) : List Entry → Bool
  | [] => false
  | d :: rest => hasExcludedDir excl d || hasExcludedDirList excl rest
end

mutual
/-- The tree with the files selected by `sel` (on path and content) removed;
nothing is left when the entry itself is a selected file. -/
def dropFiles (sel : String × FileData → Bool) (join : String → String → String)
    (path : String) : Entry → Option Entry
  | .file name data => if sel (path, data) then none else some (.file name data)
  | .dir name listing e => some (.dir name (dropFilesList sel join path listing) e)
/-- A directory listing with the selected files removed, at any depth. -/
def dropFilesList (sel : String × FileData → Bool) (join : String → String → String)
    (path : String) : List Entry → List Entry
  | [] => []
  | d :: rest =>
    match dropFiles sel join (join path d.Name) d with
    | none => dropFilesList sel join path rest
    | some d1 => d1 :: dropFilesList sel join path rest
end

/-- The final element of a path: the characters after its last `/`. -/
def finalElement (path : List Char) : List Char :=
  (path.reverse.takeWhile (fun c => c ≠ '/')).reverse

/-- The extension of a path as the component design words it: the suffix of
the final element starting at its last dot, dot included; empty when the final
element has no dot. -/
def extensionOf (path : String) : String :=
  let e := finalElement path.data
  if '.' ∈ e then String.mk ('.' :: (e.reverse.takeWhile (fun c => c ≠ '.')).reverse)
  else ""

/-- The escaped or raw pattern: the pattern itself in regex mode, its quoted
form in literal mode. -/
def basePattern (cfg : Config) : String :=
  if cfg.useRegex then cfg.searchPattern else QuoteMeta cfg.searchPattern

/-! ## The regexp library on a fragment of its syntax -/

/-- One element of a parsed expression of the modelled fragment of the syntax
of `regexp`: a literal character, or `.`. -/
inductive Atom where
  | lit (c : Char)
  | anyNotNL
deriving DecidableEq, Repr

/-- Parsing of the fragment, as `regexp/syntax` does it: a backslash followed by
one of the punctuation characters of `specialBytes` stands for that character,
`.` for any character but newline, and a character outside `specialBytes` for
itself.  Every other expression (operators, groups, classes, other escapes) is
outside the fragment. -/
def parseAtoms : List Char → Option (List Atom)
  | [] => some []
  | c :: rest =>
    if c = '\\' then
      match rest with
      | [] => none
      | d :: rest2 =>
        if d ∈ specialBytes then (parseAtoms rest2).map (fun as => Atom.lit d :: as) else none
    else if c = '.' then (parseAtoms rest).map (fun as => Atom.anyNotNL :: as)
    else if c ∈ specialBytes then none
    else (parseAtoms rest).map (fun as => Atom.lit c :: as)

/-- Whether `d` is in the simple case-folding orbit (`unicode.SimpleFold`) of the
ASCII character `c`: the character itself, its other case when it is a
letter, the Kelvin sign for `k` and the long s for `s`. -/
def foldEq (c d : Char) : Bool :=
  d = c || (c.isAlpha && (d = c.toLower || d = c.toUpper)) ||
  ((c = 'k' || c = 'K') && d.toNat = 0x212A) ||
  ((c = 's' || c = 'S') && d.toNat = 0x17F)

/-- Whether an element accepts a character, with or without the flag `i`. -/
def Atom.accepts (fold : Bool) : Atom → Char → Bool
  | .lit c, d => if fold then foldEq c d else decide (d = c)
  | .anyNotNL, d => decide (d ≠ '\n')

/-- Whether an element is `.` or an ASCII literal. -/
def Atom.isAscii : Atom → Bool
  | .lit c => decide (c.toNat < 128)
  | .anyNotNL => true

/-- Whether the elements match a prefix of the text. -/
def matchesAt (fold : Bool) : List Atom → List Char → Bool
  | [], _ => true
  | _ :: _, [] => false
  | a :: as, d :: ds => a.accepts fold d && matchesAt fold as ds

/-- `MatchString` is unanchored: the elements match somewhere in the text. -/
def matchesSomewhere (fold : Bool) (atoms : List Atom) (s : List Char) : Bool :=
  s.tails.any (matchesAt fold atoms)

/-- The flag group that `compilePattern` puts in front of the expression. -/
def foldFlag : List Char :=
  ['(', '?', 'i', ')']

/-- What `regexp.Compile` followed by `MatchString` computes on the modelled
fragment: an optional leading `(?i)` and then a sequence of elements, which
are ASCII under the flag.  `none` outside the fragment, where nothing is
modelled. -/
def fragmentMatcher (expr : String) : Option (String → Bool) :=
  if foldFlag.isPrefixOf expr.data then
    match parseAtoms (expr.data.drop foldFlag.length) with
    | some atoms =>
      if atoms.all Atom.isAscii then some (fun s => matchesSomewhere true atoms s.data)
      else none
    | none => none
  else
    match parseAtoms expr.data with
    | some atoms => some (fun s => matchesSomewhere false atoms s.data)
    | none => none

/-- The library's `Compile` and `MatchString` behave on the fragment as
modelled; nothing is said of expressions outside it. -/
def AgreesOnFragment (lib : Lib) : Prop :=
  ∀ expr m, fragmentMatcher expr = some m →
    ∃ re, lib.Compile expr = .ok re ∧ ∀ s, re.MatchString s = m s

/-! ## Worked-example fixtures -/

/-- A compiled pattern that matches the lines containing `needle`. -/
def containing (needle : String) : Regexp :=
  ⟨fun s => s.data.tails.any (fun t => needle.data.isPrefixOf t)⟩

/-- A library instance for worked examples: colours are switched off (the
sprint functions return their text unchanged, as under `NO_COLOR`), `Join` puts
a slash between a clean directory path and a name, and `Compile` rejects the
unbalanced expression `(?i)(` and otherwise yields a substring test. -/
def plainLib : Lib :=
  { Compile := fun expr =>
      if expr = "(?i)(" then .error (.other "missing closing )") else .ok (containing expr),
    Join := fun dir name => dir ++ "/" ++ name,
    lineNumColor := fun t => t,
    matchColor := fun t => t,
    normalColor := fun t => t }

/-- Flags `-pattern foo -dir root` with the given context size. -/
def exampleConfig (showContext : Int) : Config :=
  { searchPattern := "foo", searchDir := "root", caseSensitive := true, useRegex := false,
    fileExtensions := "", showContext := showContext, showStats := false, excludeDirs := "" }

/-- The tree of the C7 witness: an accepted file, a rejected file, and an
accepted file inside an excluded directory. -/
def exampleTree : Entry :=
  .dir "root"
    [ .file "x.go" ⟨none, ["hello", "world foo"], none⟩,
      .file "y.md" ⟨none, ["foo"], none⟩,
      .dir "vendor" [ .file "z.go" ⟨none, ["foo", "foo", "foo"], none⟩ ] none ]
    none

/-- The tree of the C10 witness: a good file, a file whose read fails after a
matching line, and a file that cannot be opened. -/
def failingTree : Entry :=
  .dir "root"
    [ .file "a.go" ⟨none, ["x", "foo"], none⟩,
      .file "bad.go" ⟨none, ["foo", "foo bar"], some (.other "read: input/output error")⟩,
      .file "locked.go" ⟨some (.other "open: permission denied"), [], none⟩ ]
    none

/-- The flags `-pattern "(" -regex -dir root`. -/
def badRegexConfig : Config :=
  { searchPattern := "(", searchDir := "root", caseSensitive := false, useRegex := true,
    fileExtensions := "", showContext := 0, showStats := false, excludeDirs := "" }

/-- A library instance for worked examples with patterns: as `plainLib`, with
`Compile` given by the modelled fragment and rejecting everything else. -/
def fragmentLib : Lib :=
  { plainLib with
    Compile := fun expr =>
      match fragmentMatcher expr with
      | some m => .ok ⟨m⟩
      | none => .error (.other "outside the modelled syntax") }

/-- Flags `-pattern foo -ext go -dir dir`, the others at their defaults. -/
def scenarioConfig (dir : String) : Config :=
  { searchPattern := "foo", searchDir := dir, caseSensitive := false, useRegex := false,
    fileExtensions := "go", showContext := 0, showStats := false, excludeDirs := "" }

/-- A root directory holding `x.go` ("hello", "world foo") and `y.md` ("foo"). -/
def scenarioTree (name : String) : Entry :=
  .dir name
    [ .file "x.go" ⟨none, ["hello", "world foo"], none⟩,
      .file "y.md" ⟨none, ["foo"], none⟩ ]
    none

/-! # Theorems -/

/-! ## The scan loop -/

theorem scanLines_append (cfg : Config) (lib : Lib) (cs : CodeSearcher) (path : String)
    (a b : List String) (st : ScanState) :
    scanLines cfg lib cs path st (a ++ b) =
      match scanLines cfg lib cs path st a with
      | .error p => .error p
      | .ok st1 => scanLines cfg lib cs path st1 b := by
  induction a generalizing st with
  | nil => simp [scanLines]
  | cons x xs ih =>
    simp only [List.cons_append, scanLines]
    cases scanStep cfg lib cs path st x with
    | error p => rfl
    | ok st1 => exact ih st1

theorem trailingRun_snoc (m : String → Bool) (pre : List String) (l : String) :
    trailingRun m (pre ++ [l]) = if m l then [] else trailingRun m pre ++ [l] := by
  unfold trailingRun
  cases h : m l <;> simp [List.takeWhile, h]

theorem lastN_snoc (k : Nat) (hk : 0 < k) (xs : List String) (l : String) :
    lastN k (xs ++ [l]) =
      (if k ≤ (lastN k xs).length then (lastN k xs).drop 1 else lastN k xs) ++ [l] := by
  unfold lastN
  by_cases h : k ≤ xs.length
  · have h1 : (List.drop (xs.length - k) xs).length = k := by
      rw [List.length_drop]; omega
    have h2 : (xs ++ [l]).length - k = (xs.length - k) + 1 := by
      rw [List.length_append, List.length_singleton]; omega
    rw [h1, if_pos (le_refl k), h2, List.drop_drop]
    rw [List.drop_append_of_le_length (by omega)]
  · have h1 : (List.drop (xs.length - k) xs).length < k := by
      rw [List.length_drop]; omega
    have h2 : (xs ++ [l]).length - k = 0 := by
      rw [List.length_append, List.length_singleton]; omega
    have h3 : xs.length - k = 0 := by omega
    rw [if_neg (by omega), h2, h3]
    rfl

theorem bufferAfter_snoc (N : Int) (m : String → Bool) (pre : List String) (l : String) :
    bufferAfter N m (pre ++ [l]) =
      if m l then []
      else if N > 0 then
        (if (bufferAfter N m pre).length ≥ N then (bufferAfter N m pre).drop 1
         else bufferAfter N m pre) ++ [l]
      else bufferAfter N m pre := by
  unfold bufferAfter
  by_cases hN : N > 0
  · simp only [hN, if_true]
    rw [trailingRun_snoc]
    by_cases hm : m l = true
    · simp [hm, lastN]
    · have hm2 : m l = false := by simpa using hm
      simp only [hm2, Bool.false_eq_true, if_false]
      rw [lastN_snoc N.toNat (by omega)]
      have hiff : N.toNat ≤ (lastN N.toNat (trailingRun m pre)).length ↔
          ((lastN N.toNat (trailingRun m pre)).length : Int) ≥ N := by
        constructor <;> intro h <;> omega
      by_cases hle : N.toNat ≤ (lastN N.toNat (trailingRun m pre)).length
      · rw [if_pos hle, if_pos (hiff.mp hle)]
      · rw [if_neg hle, if_neg (fun h => hle (hiff.mpr h))]
  · simp [hN]

theorem expectedResults_snoc (cfg : Config) (lib : Lib) (m : String → Bool) (path : String)
    (pre : List String) (l : String) :
    expectedResults cfg lib m path (pre ++ [l]) =
      expectedResults cfg lib m path pre ++
        (if m l then
          [createResult cfg lib path l (pre.length + 1) (bufferAfter cfg.showContext m pre)]
         else []) := by
  unfold expectedResults
  rw [List.length_append, List.length_singleton, List.range_succ, List.filterMap_append]
  congr 1
  · apply List.filterMap_congr
    intro i hi
    have hi2 : i < pre.length := List.mem_range.mp hi
    have e1 : (pre ++ [l]).getD i "" = pre.getD i "" := by
      simp [List.getD_eq_getElem?_getD, List.getElem?_append_left hi2]
    have e2 : (pre ++ [l]).take i = pre.take i := by
      rw [List.take_append_of_le_length (le_of_lt hi2)]
    rw [e1, e2]
  · have e1 : (pre ++ [l]).getD pre.length "" = l := by
      simp [List.getD_eq_getElem?_getD]
    have e2 : (pre ++ [l]).take pre.length = pre := by
      simp
    simp only [List.filterMap_cons, List.filterMap_nil, e1, e2]
    cases m l <;> simp

theorem scanLines_stateAfter (cfg : Config) (lib : Lib) (cs : CodeSearcher) (re : Regexp)
    (hre : cs.pattern = some re) (path : String) (pre : List String) :
    scanLines cfg lib cs path scanInit pre =
      .ok (stateAfter cfg lib re.MatchString path pre) := by
  induction pre using List.reverseRecOn with
  | nil => simp [scanLines, scanInit, stateAfter, expectedResults, bufferAfter, lastN, trailingRun]
  | append_singleton pre l ih =>
    rw [scanLines_append, ih]
    simp only [scanLines, scanStep, matchLine, hre, stateAfter]
    rw [expectedResults_snoc, bufferAfter_snoc]
    cases hm : re.MatchString l
    · by_cases hN : cfg.showContext > 0
      · simp [hN]
      · simp [hN]
    · simp

theorem searchFile_eq (cfg : Config) (lib : Lib) (cs : CodeSearcher) (re : Regexp)
    (hre : cs.pattern = some re) (path : String) (data : FileData) :
    searchFile cfg lib cs path data =
      match data.openErr with
      | some err => .ok ([], ⟨0, 0, 0⟩, some err)
      | none => .ok (expectedResults cfg lib re.MatchString path data.lines,
                     ⟨0, 0, data.lines.length⟩, data.scanErr) := by
  unfold searchFile
  cases data.openErr with
  | some err => rfl
  | none => simp [scanLines_stateAfter cfg lib cs re hre, stateAfter]

theorem createResult_fields (cfg : Config) (lib : Lib) (path line : String) (lineNum : Nat)
    (context : List String) :
    (createResult cfg lib path line lineNum context).File = path ∧
    (createResult cfg lib path line lineNum context).Line = lineNum ∧
    (createResult cfg lib path line lineNum context).Content = line ∧
    (createResult cfg lib path line lineNum context).IsMatch = true := by
  unfold createResult
  by_cases h : cfg.showContext > 0 <;> simp [h]

theorem expectedResults_fields (cfg : Config) (lib : Lib) (m : String → Bool) (path : String)
    (lines : List String) :
    (expectedResults cfg lib m path lines).map
        (fun r => (r.File, r.Line, r.Content, r.IsMatch)) =
      ((List.enumFrom 1 lines).filter (fun p => m p.2)).map
        (fun p => (path, p.1, p.2, true)) := by
  induction lines using List.reverseRecOn with
  | nil => simp [expectedResults]
  | append_singleton pre l ih =>
    rw [expectedResults_snoc, List.map_append, ih, List.enumFrom_append, List.filter_append,
      List.map_append]
    congr 1
    obtain ⟨h1, h2, h3, h4⟩ :=
      createResult_fields cfg lib path l (pre.length + 1) (bufferAfter cfg.showContext m pre)
    cases hm : m l
    · simp [List.filter, hm]
    · simp [List.filter, hm, h1, h2, h3, h4, Nat.add_comm]

/-- C1. For a file that opens and is read to its end without error, and a
compiled pattern, `searchFile` returns a nil error and one record per matching
line, in file order: the records, read as (File, Line, Content, IsMatch), are
exactly (path, 1-based index, text, true) of the matching lines, and
`TotalLines` is the number of lines of the file. -/
theorem searchFile_one_result_per_matching_line (cfg : Config) (lib : Lib)
    (fileFilter excludeFilter : List String) (re : Regexp) (path : String)
    (lines : List String) :
    ∃ rs stats,
      searchFile cfg lib ⟨fileFilter, excludeFilter, some re⟩ path ⟨none, lines, none⟩ =
        .ok (rs, stats, none) ∧
      rs.map (fun r => (r.File, r.Line, r.Content, r.IsMatch)) =
        ((List.enumFrom 1 lines).filter (fun p => re.MatchString p.2)).map
          (fun p => (path, p.1, p.2, true)) ∧
      stats.TotalLines = lines.length := by
  refine ⟨expectedResults cfg lib re.MatchString path lines, ⟨0, 0, lines.length⟩, ?_, ?_, rfl⟩
  · rw [searchFile_eq cfg lib ⟨fileFilter, excludeFilter, some re⟩ re rfl]
  · exact expectedResults_fields cfg lib re.MatchString path lines

/-! ## The context window -/

theorem filterMap_range_single {α : Type} (k len : Nat) (c : α) :
    (List.range len).filterMap (fun i => if i = k then some c else none) =
      if k < len then [c] else [] := by
  induction len with
  | zero => simp
  | succ len ih =>
    rw [List.range_succ, List.filterMap_append, ih]
    by_cases h1 : k < len
    · have h2 : ¬ len = k := by omega
      simp [h1, h2, Nat.lt_succ_of_lt h1]
    · by_cases h2 : len = k
      · subst h2
        simp
      · have h3 : ¬ k < len + 1 := by omega
        simp [h1, h2, h3]

theorem expectedResults_at_line (cfg : Config) (lib : Lib) (m : String → Bool) (path : String)
    (lines : List String) (n : Nat) (hn1 : 1 ≤ n) (hn : n ≤ lines.length)
    (hmatch : m (lines.getD (n - 1) "") = true) :
    (expectedResults cfg lib m path lines).filter (fun r => decide (r.Line = n)) =
      [createResult cfg lib path (lines.getD (n - 1) "") n
        (bufferAfter cfg.showContext m (lines.take (n - 1)))] := by
  unfold expectedResults
  rw [List.filter_filterMap]
  have hfun : (fun i =>
      Option.filter (fun r => decide (r.Line = n))
        (if m (lines.getD i "") then
          some (createResult cfg lib path (lines.getD i "") (i + 1)
            (bufferAfter cfg.showContext m (lines.take i)))
        else none)) =
      (fun i => if i = n - 1 then
        some (createResult cfg lib path (lines.getD (n - 1) "") n
          (bufferAfter cfg.showContext m (lines.take (n - 1))))
        else none) := by
    funext i
    by_cases hi : i = n - 1
    · subst hi
      have e : n - 1 + 1 = n := by omega
      rw [e, if_pos hmatch, if_pos rfl]
      simp [Option.filter, (createResult_fields cfg lib path _ n _).2.1]
    · have hne : ¬ (i + 1 = n) := by omega
      rw [if_neg hi]
      by_cases hm : m (lines.getD i "") = true
      · rw [if_pos hm]
        simp [Option.filter, (createResult_fields cfg lib path _ (i + 1) _).2.1, hne]
      · rw [if_neg hm]
        rfl
  rw [hfun, filterMap_range_single]
  have : n - 1 < lines.length := by omega
  simp [this]

theorem trailingRun_of_last_match (m : String → Bool) (pre : List String) (l : String)
    (h : m l = true) : trailingRun m (pre ++ [l]) = [] := by
  rw [trailingRun_snoc, if_pos h]

theorem trailingRun_append (m : String → Bool) (a b : List String)
    (ha : trailingRun m a = []) (hb : ∀ x ∈ b, m x = false) :
    trailingRun m (a ++ b) = b := by
  induction b using List.reverseRecOn with
  | nil => simpa using ha
  | append_singleton b x ih =>
    rw [← List.append_assoc, trailingRun_snoc]
    have hx : m x = false := hb x (by simp)
    rw [ih (fun y hy => hb y (by simp [hy]))]
    simp [hx]

theorem trailingRun_window (m : String → Bool) (lines : List String) (n p : Nat)
    (hn1 : 1 ≤ n) (hn : n ≤ lines.length) (hp : p < n)
    (hplast : p = 0 ∨ m (lines.getD (p - 1) "") = true)
    (hrun : ∀ i, p < i → i < n → m (lines.getD (i - 1) "") = false) :
    trailingRun m (lines.take (n - 1)) = (lines.take (n - 1)).drop p := by
  have hsplit : lines.take (n - 1) = lines.take p ++ (lines.take (n - 1)).drop p := by
    have h1 : (lines.take (n - 1)).take p = lines.take p := by
      rw [List.take_take]
      congr 1
      omega
    rw [← h1, List.take_append_drop]
  have ha : trailingRun m (lines.take p) = [] := by
    rcases hplast with h0 | hm
    · subst h0
      simp [trailingRun]
    · by_cases h0 : p = 0
      · subst h0
        simp [trailingRun]
      · have hp1 : p - 1 < lines.length := by omega
        have e : lines.take p = lines.take (p - 1) ++ [lines.getD (p - 1) ""] := by
          have e1 : p = (p - 1) + 1 := by omega
          rw [List.getD_eq_getElem _ _ hp1]
          nth_rewrite 1 [e1]
          rw [List.take_succ, List.getElem?_eq_getElem hp1]
          rfl
        rw [e]
        exact trailingRun_of_last_match m _ _ hm
  have hb : ∀ x ∈ (lines.take (n - 1)).drop p, m x = false := by
    intro x hx
    obtain ⟨j, hj, rfl⟩ := List.getElem_of_mem hx
    rw [List.length_drop, List.length_take] at hj
    have hj2 : p + j < lines.length := by omega
    have e : ((lines.take (n - 1)).drop p)[j] = lines.getD (p + j + 1 - 1) "" := by
      rw [List.getElem_drop, List.getElem_take]
      rw [List.getD_eq_getElem _ _ (by omega)]
      rfl
    rw [e]
    exact hrun (p + j + 1) (by omega) (by omega)
  conv_lhs => rw [hsplit]
  exact trailingRun_append m _ _ ha hb

theorem bufferAfter_window (N : Int) (hN : N > 0) (m : String → Bool) (lines : List String)
    (n p : Nat) (hn1 : 1 ≤ n) (hn : n ≤ lines.length) (hp : p < n)
    (hplast : p = 0 ∨ m (lines.getD (p - 1) "") = true)
    (hrun : ∀ i, p < i → i < n → m (lines.getD (i - 1) "") = false) :
    bufferAfter N m (lines.take (n - 1)) =
      (lines.take (n - 1)).drop (max (p + 1) (n - N.toNat) - 1) := by
  unfold bufferAfter
  rw [if_pos hN, trailingRun_window m lines n p hn1 hn hp hplast hrun]
  unfold lastN
  rw [List.drop_drop, List.length_drop, List.length_take]
  congr 1
  omega

theorem window_lines_unmatched (m : String → Bool) (lines : List String) (n p s : Nat)
    (hn : n ≤ lines.length) (hs : p + 1 ≤ s)
    (hrun : ∀ i, p < i → i < n → m (lines.getD (i - 1) "") = false) :
    ∀ t ∈ (lines.take (n - 1)).drop (s - 1), m t = false := by
  intro x hx
  obtain ⟨j, hj, rfl⟩ := List.getElem_of_mem hx
  rw [List.length_drop, List.length_take] at hj
  have e : ((lines.take (n - 1)).drop (s - 1))[j] = lines.getD (s + j - 1) "" := by
    rw [List.getElem_drop, List.getElem_take]
    rw [List.getD_eq_getElem _ _ (by omega)]
    congr 1
    omega
  rw [e]
  exact hrun (s + j) (by omega) (by omega)

/-- C2. With context size N > 0, a file whose open succeeds and a compiled
pattern: if line n matches, p is the last matching line before n (0 when
there is none) and s = max(p+1, n-N), then `searchFile` returns exactly one
record for line n, and its Context is the renderings of the texts of lines
s, ..., n-1 in order (none of which matches), followed by the rendering of the
matched line n; it has (n - s) + 1 entries. -/
theorem searchFile_context_window (cfg : Config) (lib : Lib)
    (fileFilter excludeFilter : List String) (re : Regexp) (path : String)
    (lines : List String) (scanErr : Option GoError) (n p : Nat)
    (hN : cfg.showContext > 0) (hn1 : 1 ≤ n) (hn : n ≤ lines.length)
    (hmatch : re.MatchString (lines.getD (n - 1) "") = true)
    (hp : p < n)
    (hplast : p = 0 ∨ re.MatchString (lines.getD (p - 1) "") = true)
    (hrun : ∀ i, p < i → i < n → re.MatchString (lines.getD (i - 1) "") = false) :
    ∃ rs stats r,
      searchFile cfg lib ⟨fileFilter, excludeFilter, some re⟩ path ⟨none, lines, scanErr⟩ =
        .ok (rs, stats, scanErr) ∧
      rs.filter (fun x => decide (x.Line = n)) = [r] ∧
      r.Context =
        ((lines.take (n - 1)).drop (max (p + 1) (n - cfg.showContext.toNat) - 1)).map
            (fun t => formatLine lib (contextRecord t)) ++
          [formatLine lib ⟨path, n, lines.getD (n - 1) "", [], true⟩] ∧
      r.Context.length = (n - max (p + 1) (n - cfg.showContext.toNat)) + 1 ∧
      ∀ t ∈ (lines.take (n - 1)).drop (max (p + 1) (n - cfg.showContext.toNat) - 1),
        re.MatchString t = false := by
  have hctx : (createResult cfg lib path (lines.getD (n - 1) "") n
      (bufferAfter cfg.showContext re.MatchString (lines.take (n - 1)))).Context =
      ((lines.take (n - 1)).drop (max (p + 1) (n - cfg.showContext.toNat) - 1)).map
          (fun t => formatLine lib (contextRecord t)) ++
        [formatLine lib ⟨path, n, lines.getD (n - 1) "", [], true⟩] := by
    rw [bufferAfter_window cfg.showContext hN re.MatchString lines n p hn1 hn hp hplast hrun]
    unfold createResult
    simp only [hN, if_true]
  refine ⟨expectedResults cfg lib re.MatchString path lines, ⟨0, 0, lines.length⟩,
    createResult cfg lib path (lines.getD (n - 1) "") n
      (bufferAfter cfg.showContext re.MatchString (lines.take (n - 1))), ?_, ?_, hctx, ?_, ?_⟩
  · rw [searchFile_eq cfg lib ⟨fileFilter, excludeFilter, some re⟩ re rfl]
  · exact expectedResults_at_line cfg lib re.MatchString path lines n hn1 hn hmatch
  · rw [hctx, List.length_append, List.length_map, List.length_drop, List.length_take,
      List.length_singleton]
    omega
  · exact window_lines_unmatched re.MatchString lines n p _ hn (by omega) hrun

/-- The witness of C2: with context 2, the match on line 10 of a file whose
lines 5 to 9 do not match (line 4 does) gets the renderings of the texts of
lines 8, 9 and 10; the match on line 2 after a non-matching line 1 gets those
of lines 1 and 2. -/
theorem searchFile_context_window_witness :
    (∃ rs stats r,
      searchFile (exampleConfig 2) plainLib ⟨[], [], some (containing "foo")⟩ "root/x.go"
          ⟨none, ["a", "b", "c", "foo d", "e", "f", "g", "h", "i", "j foo"], none⟩ =
        .ok (rs, stats, none) ∧
      rs.filter (fun x => decide (x.Line = 10)) = [r] ∧
      r.Context = ["0 h", "0 i", "10 j foo"] ∧
      r.Context.length = 3 ∧
      ∀ t ∈ ["h", "i"], (containing "foo").MatchString t = false) ∧
    (∃ rs stats r,
      searchFile (exampleConfig 2) plainLib ⟨[], [], some (containing "foo")⟩ "root/x.go"
          ⟨none, ["a", "foo"], none⟩ =
        .ok (rs, stats, none) ∧
      rs.filter (fun x => decide (x.Line = 2)) = [r] ∧
      r.Context = ["0 a", "2 foo"] ∧
      r.Context.length = 2 ∧
      ∀ t ∈ ["a"], (containing "foo").MatchString t = false) :=
  ⟨searchFile_context_window (exampleConfig 2) plainLib [] [] (containing "foo") "root/x.go"
      ["a", "b", "c", "foo d", "e", "f", "g", "h", "i", "j foo"] none 10 4
      (by decide) (by decide) (by decide) (by decide) (by decide) (Or.inr (by decide))
      (by intro i h1 h2; interval_cases i <;> decide),
   searchFile_context_window (exampleConfig 2) plainLib [] [] (containing "foo") "root/x.go"
      ["a", "foo"] none 2 0
      (by decide) (by decide) (by decide) (by decide) (by decide) (Or.inl rfl)
      (by intro i h1 h2; interval_cases i; decide)⟩

theorem Entry.induct (P : Entry → Prop) (Q : List Entry → Prop)
    (hfile : ∀ name data, P (.file name data))
    (hdir : ∀ name listing e, Q listing → P (.dir name listing e))
    (hnil : Q [])
    (hcons : ∀ d rest, P d → Q rest → Q (d :: rest)) :
    (∀ t, P t) ∧ (∀ l, Q l) :=
  ⟨fun t => @Entry.rec P Q hfile hdir hnil hcons t,
   fun l => @Entry.rec_1 P Q hfile hdir hnil hcons l⟩

theorem searchCallback_file (cfg : Config) (lib : Lib) (cs : CodeSearcher) (re : Regexp)
    (hre : cs.pattern = some re) (path name : String) (data : FileData)
    (st : List SearchResult × SearchStats) :
    searchCallback cfg lib cs path (some (.file name data)) none st =
      .ok (if isScanned cfg lib cs (path, data) then absorb cfg lib cs st (path, data) else st,
           none) := by
  unfold searchCallback isScanned absorb scansCleanly searchFileResults searchFileLines
  simp only [searchFile_eq cfg lib cs re hre]
  cases hv : isValidFile cs path
  · simp
  · cases ho : data.openErr with
    | some e => simp
    | none =>
      cases hs : data.scanErr with
      | some e => simp
      | none => simp

theorem walk_eq (cfg : Config) (lib : Lib) (cs : CodeSearcher) (re : Regexp)
    (hre : cs.pattern = some re) :
    (∀ t path st,
      walkDir lib.Join (searchCallback cfg lib cs) path t st =
        .ok (((reachedFiles lib.Join cs.excludeFilter path t).filter
                (isScanned cfg lib cs)).foldl (absorb cfg lib cs) st, none)) ∧
    (∀ l path st,
      walkDirs lib.Join (searchCallback cfg lib cs) path l st =
        .ok (((reachedFilesList lib.Join cs.excludeFilter path l).filter
                (isScanned cfg lib cs)).foldl (absorb cfg lib cs) st, none)) := by
  apply Entry.induct
  · intro name data path st
    rw [walkDir, searchCallback_file cfg lib cs re hre, reachedFiles]
    cases h : isScanned cfg lib cs (path, data) <;> simp [List.filter, h]
  · intro name listing e ih path st
    rw [walkDir, reachedFiles]
    by_cases hx : name ∈ cs.excludeFilter
    · simp [searchCallback, hx, skipDirToNil]
    · cases e with
      | none => simp [searchCallback, hx, ih]
      | some rerr => simp [searchCallback, hx, ih]
  · intro path st
    simp [walkDirs, reachedFilesList]
  · intro d rest ihd ihrest path st
    rw [walkDirs, ihd, reachedFilesList]
    simp [ihrest, List.filter_append, List.foldl_append]

theorem foldl_absorb (cfg : Config) (lib : Lib) (cs : CodeSearcher)
    (fs : List (String × FileData)) (st : List SearchResult × SearchStats) :
    fs.foldl (absorb cfg lib cs) st =
      (st.1 ++ fs.flatMap (searchFileResults cfg lib cs),
       { FilesScanned := st.2.FilesScanned + fs.length,
         MatchesFound := st.2.MatchesFound +
           (fs.map (fun f => (searchFileResults cfg lib cs f).length)).sum,
         TotalLines := st.2.TotalLines + (fs.map (searchFileLines cfg lib cs)).sum }) := by
  induction fs generalizing st with
  | nil => simp
  | cons f fs ih =>
    rw [List.foldl_cons, ih]
    simp [absorb, List.flatMap_cons, Nat.add_assoc, Nat.add_comm 1 fs.length]

theorem Search_eq (cfg : Config) (lib : Lib) (cs : CodeSearcher) (re : Regexp)
    (hre : cs.pattern = some re) (t : Entry) :
    Search cfg lib cs (.ok t) =
      .ok ((scannedFiles cfg lib cs t).flatMap (searchFileResults cfg lib cs),
           { FilesScanned := (scannedFiles cfg lib cs t).length,
             MatchesFound := ((scannedFiles cfg lib cs t).map
               (fun f => (searchFileResults cfg lib cs f).length)).sum,
             TotalLines := ((scannedFiles cfg lib cs t).map (searchFileLines cfg lib cs)).sum },
           none) := by
  unfold Search WalkDir
  simp only [(walk_eq cfg lib cs re hre).1, foldl_absorb]
  simp [scannedFiles]

theorem searchCallback_file_any (cfg : Config) (lib : Lib) (cs : CodeSearcher)
    (path name : String) (data : FileData) (st : List SearchResult × SearchStats) :
    searchCallback cfg lib cs path (some (.file name data)) none st =
      if panicsOn cfg lib cs (path, data) then .error .nilDereference
      else .ok (if isScanned cfg lib cs (path, data) then absorb cfg lib cs st (path, data)
                else st, none) := by
  unfold searchCallback panicsOn isScanned absorb scansCleanly searchFileResults searchFileLines
  cases hv : isValidFile cs path
  · simp
  · cases hsf : searchFile cfg lib cs path data with
    | error p =>
      cases p
      simp [hsf]
    | ok r =>
      obtain ⟨rs, stats, err⟩ := r
      cases err <;> simp [hsf]

theorem walk_any (cfg : Config) (lib : Lib) (cs : CodeSearcher) :
    (∀ t path st,
      walkDir lib.Join (searchCallback cfg lib cs) path t st =
        if (reachedFiles lib.Join cs.excludeFilter path t).any (panicsOn cfg lib cs) then
          .error .nilDereference
        else
          .ok (((reachedFiles lib.Join cs.excludeFilter path t).filter
                  (isScanned cfg lib cs)).foldl (absorb cfg lib cs) st, none)) ∧
    (∀ l path st,
      walkDirs lib.Join (searchCallback cfg lib cs) path l st =
        if (reachedFilesList lib.Join cs.excludeFilter path l).any (panicsOn cfg lib cs) then
          .error .nilDereference
        else
          .ok (((reachedFilesList lib.Join cs.excludeFilter path l).filter
                  (isScanned cfg lib cs)).foldl (absorb cfg lib cs) st, none)) := by
  apply Entry.induct
  · intro name data path st
    rw [walkDir, searchCallback_file_any, reachedFiles]
    cases hp : panicsOn cfg lib cs (path, data)
    · cases h : isScanned cfg lib cs (path, data) <;> simp [List.filter, h, hp]
    · simp [hp]
  · intro name listing e ih path st
    rw [walkDir, reachedFiles]
    by_cases hx : name ∈ cs.excludeFilter
    · simp [searchCallback, hx, skipDirToNil]
    · cases e with
      | none =>
        simp only [searchCallback, hx, if_false, ih]
      | some rerr =>
        simp only [searchCallback, hx, if_false, ih]
  · intro path st
    simp [walkDirs, reachedFilesList]
  · intro d rest ihd ihrest path st
    rw [walkDirs, ihd, reachedFilesList, List.any_append]
    cases h1 : (reachedFiles lib.Join cs.excludeFilter (lib.Join path d.Name) d).any
      (panicsOn cfg lib cs)
    · simp only [Bool.false_eq_true, if_false, Bool.false_or]
      rw [ihrest]
      simp [List.filter_append, List.foldl_append]
    · simp

theorem Search_any (cfg : Config) (lib : Lib) (cs : CodeSearcher) (t : Entry) :
    Search cfg lib cs (.ok t) =
      if (reachedFiles lib.Join cs.excludeFilter cfg.searchDir t).any (panicsOn cfg lib cs) then
        .error .nilDereference
      else
        .ok ((scannedFiles cfg lib cs t).flatMap (searchFileResults cfg lib cs),
           { FilesScanned := (scannedFiles cfg lib cs t).length,
             MatchesFound := ((scannedFiles cfg lib cs t).map
               (fun f => (searchFileResults cfg lib cs f).length)).sum,
             TotalLines := ((scannedFiles cfg lib cs t).map (searchFileLines cfg lib cs)).sum },
           none) := by
  unfold Search WalkDir
  simp only [(walk_any cfg lib cs).1, foldl_absorb]
  cases (reachedFiles lib.Join cs.excludeFilter cfg.searchDir t).any (panicsOn cfg lib cs)
  · simp [scannedFiles]
  · simp

theorem Search_root_error (cfg : Config) (lib : Lib) (cs : CodeSearcher) (err : GoError) :
    Search cfg lib cs (.error err) = .ok ([], ⟨0, 0, 0⟩, none) := by
  rfl

theorem length_flatMap_eq_sum {α β : Type} (f : α → List β) (l : List α) :
    (l.flatMap f).length = (l.map (fun a => (f a).length)).sum := by
  induction l with
  | nil => rfl
  | cons a l ih => simp [List.flatMap_cons, ih]

/-- C6. For every tree (or missing root) and every searcher with a compiled
pattern, `Search` returns; and whenever `Search` returns, for any searcher, the
result sequence is the concatenation, in traversal order, of the per-file
results of `searchFile` over the scanned files, and `MatchesFound` equals both
the sum of the per-file result counts and the length of the result sequence. -/
theorem Search_matches_found (cfg : Config) (lib : Lib) (root : Except GoError Entry) :
    (∀ (fileFilter excludeFilter : List String) (re : Regexp),
      ∃ out, Search cfg lib ⟨fileFilter, excludeFilter, some re⟩ root = .ok out) ∧
    (∀ (cs : CodeSearcher) (rs : List SearchResult) (stats : SearchStats)
        (err : Option GoError),
      Search cfg lib cs root = .ok (rs, stats, err) →
        rs = (scannedAt cfg lib cs root).flatMap (searchFileResults cfg lib cs) ∧
        stats.MatchesFound =
          ((scannedAt cfg lib cs root).map
            (fun f => (searchFileResults cfg lib cs f).length)).sum ∧
        stats.MatchesFound = rs.length) := by
  constructor
  · intro fileFilter excludeFilter re
    cases root with
    | error e => exact ⟨_, Search_root_error cfg lib _ e⟩
    | ok t => exact ⟨_, Search_eq cfg lib ⟨fileFilter, excludeFilter, some re⟩ re rfl t⟩
  · intro cs rs stats err h
    cases root with
    | error e =>
      rw [Search_root_error] at h
      cases h
      exact ⟨rfl, rfl, rfl⟩
    | ok t =>
      rw [Search_any] at h
      cases hp : (reachedFiles lib.Join cs.excludeFilter cfg.searchDir t).any
        (panicsOn cfg lib cs)
      · rw [hp] at h
        simp only [Bool.false_eq_true, if_false] at h
        cases h
        exact ⟨rfl, rfl, (length_flatMap_eq_sum _ _).symm⟩
      · rw [hp] at h
        simp at h

theorem reached_subset_all (join : String → String → String) (excl : List String) :
    (∀ t path, ∀ f ∈ reachedFiles join excl path t, f ∈ allFiles join path t) ∧
    (∀ l path, ∀ f ∈ reachedFilesList join excl path l, f ∈ allFilesList join path l) := by
  apply Entry.induct
  · intro name data path f hf
    simpa [reachedFiles, allFiles] using hf
  · intro name listing e ih path f hf
    rw [reachedFiles] at hf
    rw [allFiles]
    by_cases hx : name ∈ excl
    · simp [hx] at hf
    · rw [if_neg hx] at hf
      exact ih path f hf
  · intro path f hf
    simp [reachedFilesList] at hf
  · intro d rest ihd ihrest path f hf
    rw [reachedFilesList, List.mem_append] at hf
    rw [allFilesList, List.mem_append]
    rcases hf with h | h
    · exact Or.inl (ihd _ f h)
    · exact Or.inr (ihrest _ f h)

theorem scansCleanly_of_readable (cfg : Config) (lib : Lib) (cs : CodeSearcher) (re : Regexp)
    (hre : cs.pattern = some re) (f : String × FileData)
    (ho : f.2.openErr = none) (hs : f.2.scanErr = none) :
    scansCleanly cfg lib cs f = true ∧ searchFileLines cfg lib cs f = f.2.lines.length := by
  unfold scansCleanly searchFileLines
  rw [searchFile_eq cfg lib cs re hre, ho, hs]
  exact ⟨rfl, rfl⟩

/-- C7. In a tree where every file opens and is read to its end without
error, and for a searcher with a compiled pattern, `Search` returns with
`FilesScanned` equal to the number of files that are reached (not under a pruned
directory) and accepted by the extension filter, and `TotalLines` equal to the
sum of the line counts of exactly those files. -/
theorem Search_files_scanned_total_lines (cfg : Config) (lib : Lib)
    (fileFilter excludeFilter : List String) (re : Regexp) (t : Entry)
    (hreadable : ∀ f ∈ allFiles lib.Join cfg.searchDir t,
      f.2.openErr = none ∧ f.2.scanErr = none) :
    ∃ rs stats,
      Search cfg lib ⟨fileFilter, excludeFilter, some re⟩ (.ok t) = .ok (rs, stats, none) ∧
      stats.FilesScanned =
        ((reachedFiles lib.Join excludeFilter cfg.searchDir t).filter
          (fun f => isValidFile ⟨fileFilter, excludeFilter, some re⟩ f.1)).length ∧
      stats.TotalLines =
        (((reachedFiles lib.Join excludeFilter cfg.searchDir t).filter
          (fun f => isValidFile ⟨fileFilter, excludeFilter, some re⟩ f.1)).map
            (fun f => f.2.lines.length)).sum := by
  have hfilter : (reachedFiles lib.Join excludeFilter cfg.searchDir t).filter
        (isScanned cfg lib ⟨fileFilter, excludeFilter, some re⟩) =
      (reachedFiles lib.Join excludeFilter cfg.searchDir t).filter
        (fun f => isValidFile ⟨fileFilter, excludeFilter, some re⟩ f.1) := by
    apply List.filter_congr
    intro f hf
    have hr := hreadable f ((reached_subset_all lib.Join excludeFilter).1 t _ f hf)
    have hc := (scansCleanly_of_readable cfg lib ⟨fileFilter, excludeFilter, some re⟩ re rfl f
      hr.1 hr.2).1
    simp [isScanned, hc]
  refine ⟨_, _, Search_eq cfg lib ⟨fileFilter, excludeFilter, some re⟩ re rfl t, ?_, ?_⟩
  · show (scannedFiles cfg lib _ t).length = _
    rw [scannedFiles, hfilter]
  · show ((scannedFiles cfg lib _ t).map _).sum = _
    rw [scannedFiles, hfilter]
    congr 1
    apply List.map_congr_left
    intro f hf
    have hf2 := (List.mem_filter.mp hf).1
    have hr := hreadable f ((reached_subset_all lib.Join excludeFilter).1 t _ f hf2)
    exact (scansCleanly_of_readable cfg lib ⟨fileFilter, excludeFilter, some re⟩ re rfl f
      hr.1 hr.2).2

/-- The witness of C7: in `exampleTree` with extensions `.go` and `vendor`
excluded, every file is readable; one file of two lines is counted. -/
theorem Search_files_scanned_total_lines_witness :
    ∃ rs stats,
      Search (exampleConfig 0) plainLib ⟨[".go"], ["vendor"], some (containing "foo")⟩
        (.ok exampleTree) = .ok (rs, stats, none) ∧
      stats.FilesScanned = 1 ∧ stats.TotalLines = 2 :=
  Search_files_scanned_total_lines (exampleConfig 0) plainLib [".go"] ["vendor"]
    (containing "foo") exampleTree (by decide)

theorem pruneEntry_name (excl : List String) (d d1 : Entry)
    (h : pruneEntry excl d = some d1) : d1.Name = d.Name := by
  cases d with
  | file name data =>
    simp [pruneEntry] at h
    subst h
    rfl
  | dir name listing e =>
    rw [pruneEntry] at h
    by_cases hx : name ∈ excl
    · simp [hx] at h
    · simp [hx] at h
      subst h
      rfl

theorem reached_eq_all_pruned (join : String → String → String) (excl : List String) :
    (∀ t path, reachedFiles join excl path t =
      match pruneEntry excl t with
      | none => []
      | some t1 => allFiles join path t1) ∧
    (∀ l path, reachedFilesList join excl path l = allFilesList join path (pruneList excl l)) := by
  apply Entry.induct
  · intro name data path
    simp [reachedFiles, pruneEntry, allFiles]
  · intro name listing e ih path
    rw [reachedFiles, pruneEntry]
    by_cases hx : name ∈ excl
    · simp [hx]
    · simp [hx, allFiles, ih]
  · intro path
    simp [reachedFilesList, pruneList, allFilesList]
  · intro d rest ihd ihrest path
    rw [reachedFilesList, pruneList, ihd, ihrest]
    cases hp : pruneEntry excl d with
    | none => simp
    | some d1 => simp [allFilesList, pruneEntry_name excl d d1 hp]

theorem pruned_has_no_excluded (excl : List String) :
    (∀ t t1, pruneEntry excl t = some t1 → hasExcludedDir excl t1 = false) ∧
    (∀ l, hasExcludedDirList excl (pruneList excl l) = false) := by
  apply Entry.induct
  · intro name data t1 h
    simp [pruneEntry] at h
    subst h
    rfl
  · intro name listing e ih t1 h
    rw [pruneEntry] at h
    by_cases hx : name ∈ excl
    · simp [hx] at h
    · simp [hx] at h
      subst h
      simp [hasExcludedDir, hx, ih]
  · simp [pruneList, hasExcludedDirList]
  · intro d rest ihd ihrest
    rw [pruneList]
    cases hp : pruneEntry excl d with
    | none => simpa using ihrest
    | some d1 => simp [hasExcludedDirList, ihd d1 hp, ihrest]

theorem reached_eq_all_of_no_excluded (join : String → String → String) (excl : List String) :
    (∀ t path, hasExcludedDir excl t = false →
      reachedFiles join excl path t = allFiles join path t) ∧
    (∀ l path, hasExcludedDirList excl l = false →
      reachedFilesList join excl path l = allFilesList join path l) := by
  apply Entry.induct
  · intro name data path _
    simp [reachedFiles, allFiles]
  · intro name listing e ih path h
    simp [hasExcludedDir] at h
    simp [reachedFiles, allFiles, h.1, ih path h.2]
  · intro path _
    simp [reachedFilesList, allFilesList]
  · intro d rest ihd ihrest path h
    simp [hasExcludedDirList] at h
    simp [reachedFilesList, allFilesList, ihd _ h.1, ihrest path h.2]

theorem searchFileResults_file (cfg : Config) (lib : Lib) (cs : CodeSearcher) (re : Regexp)
    (hre : cs.pattern = some re) (f : String × FileData) :
    ∀ r ∈ searchFileResults cfg lib cs f, r.File = f.1 := by
  intro r hr
  unfold searchFileResults at hr
  rw [searchFile_eq cfg lib cs re hre] at hr
  cases ho : f.2.openErr with
  | some e => simp [ho] at hr
  | none =>
    simp only [ho] at hr
    unfold expectedResults at hr
    obtain ⟨i, _, hi⟩ := List.mem_filterMap.mp hr
    by_cases hm : re.MatchString (f.2.lines.getD i "") = true
    · rw [if_pos hm] at hi
      cases hi
      exact (createResult_fields cfg lib f.1 _ _ _).1
    · rw [if_neg hm] at hi
      cases hi

/-- C4. For every tree and exclude-set (searcher with a compiled pattern):
when the root is itself an excluded directory the search is empty; otherwise
`Search` returns exactly what it returns on the tree from which every
directory with an excluded name has been removed at any depth (so files under
such directories add nothing to the results or to any counter, and the other
files are scanned as if those directories were absent), that tree holds no
excluded directory, and every returned record names a file of it. -/
theorem Search_excluded_dirs (cfg : Config) (lib : Lib)
    (fileFilter excludeFilter : List String) (re : Regexp) (t : Entry) :
    match pruneEntry excludeFilter t with
    | none =>
      Search cfg lib ⟨fileFilter, excludeFilter, some re⟩ (.ok t) = .ok ([], ⟨0, 0, 0⟩, none)
    | some t1 =>
      ∃ rs stats,
        Search cfg lib ⟨fileFilter, excludeFilter, some re⟩ (.ok t) = .ok (rs, stats, none) ∧
        Search cfg lib ⟨fileFilter, excludeFilter, some re⟩ (.ok t1) = .ok (rs, stats, none) ∧
        hasExcludedDir excludeFilter t1 = false ∧
        ∀ r ∈ rs, r.File ∈ (allFiles lib.Join cfg.searchDir t1).map Prod.fst := by
  have hreach := (reached_eq_all_pruned lib.Join excludeFilter).1 t cfg.searchDir
  cases hp : pruneEntry excludeFilter t with
  | none =>
    rw [hp] at hreach
    rw [Search_eq cfg lib ⟨fileFilter, excludeFilter, some re⟩ re rfl t]
    simp [scannedFiles, hreach]
  | some t1 =>
    rw [hp] at hreach
    have hno := (pruned_has_no_excluded excludeFilter).1 t t1 hp
    have hreach1 := (reached_eq_all_of_no_excluded lib.Join excludeFilter).1 t1
      cfg.searchDir hno
    have hscan : scannedFiles cfg lib ⟨fileFilter, excludeFilter, some re⟩ t1 =
        scannedFiles cfg lib ⟨fileFilter, excludeFilter, some re⟩ t := by
      simp only [scannedFiles, hreach, hreach1]
    refine ⟨_, _, Search_eq cfg lib ⟨fileFilter, excludeFilter, some re⟩ re rfl t, ?_, hno, ?_⟩
    · rw [Search_eq cfg lib ⟨fileFilter, excludeFilter, some re⟩ re rfl t1, hscan]
    · intro r hr
      obtain ⟨f, hf, hrf⟩ := List.mem_flatMap.mp hr
      have hfile := searchFileResults_file cfg lib ⟨fileFilter, excludeFilter, some re⟩ re rfl
        f r hrf
      have hmem : f ∈ allFiles lib.Join cfg.searchDir t1 := by
        have := (List.mem_filter.mp hf).1
        simpa only [hreach] using this
      exact List.mem_map.mpr ⟨f, hmem, hfile.symm⟩

theorem dropFiles_name (sel : String × FileData → Bool) (join : String → String → String)
    (path : String) (d d1 : Entry) (h : dropFiles sel join path d = some d1) :
    d1.Name = d.Name := by
  cases d with
  | file name data =>
    rw [dropFiles] at h
    by_cases hs : sel (path, data) = true
    · simp [hs] at h
    · simp [hs] at h
      subst h
      rfl
  | dir name listing e =>
    simp [dropFiles] at h
    subst h
    rfl

theorem reached_dropFiles (sel : String × FileData → Bool) (join : String → String → String)
    (excl : List String) :
    (∀ t path,
      (match dropFiles sel join path t with
        | none => []
        | some t1 => reachedFiles join excl path t1) =
      (reachedFiles join excl path t).filter (fun f => !sel f)) ∧
    (∀ l path,
      reachedFilesList join excl path (dropFilesList sel join path l) =
      (reachedFilesList join excl path l).filter (fun f => !sel f)) := by
  apply Entry.induct
  · intro name data path
    rw [dropFiles, reachedFiles]
    cases hs : sel (path, data) <;> simp [hs, List.filter, reachedFiles]
  · intro name listing e ih path
    simp only [dropFiles, reachedFiles]
    by_cases hx : name ∈ excl
    · simp [hx]
    · simp only [hx, if_false]
      exact ih path
  · intro path
    simp [dropFilesList, reachedFilesList]
  · intro d rest ihd ihrest path
    rw [dropFilesList, reachedFilesList, List.filter_append, ← ihd, ← ihrest]
    cases hp : dropFiles sel join (join path d.Name) d with
    | none => simp
    | some d1 => simp [reachedFilesList, dropFiles_name sel join _ d d1 hp]

theorem not_scanned_of_failing (cfg : Config) (lib : Lib) (cs : CodeSearcher) (re : Regexp)
    (hre : cs.pattern = some re) (f : String × FileData)
    (hfail : f.2.openErr ≠ none ∨ f.2.scanErr ≠ none) :
    isScanned cfg lib cs f = false := by
  unfold isScanned scansCleanly
  rw [searchFile_eq cfg lib cs re hre]
  cases ho : f.2.openErr with
  | some e => simp
  | none =>
    cases hs : f.2.scanErr with
    | some e => simp
    | none => simp [ho, hs] at hfail

/-- C10. For a searcher with a compiled pattern: the callback leaves `results`
and `stats` untouched and returns nil for a file that cannot be opened or
whose read ends in an error (whatever lines it yielded before); `Search`
returns a nil error on every tree; and removing from the tree any selection of
such failing files changes neither the results nor the stats (when the root is
itself a removed file, they are empty and zero). -/
theorem Search_skips_failing_files (cfg : Config) (lib : Lib)
    (fileFilter excludeFilter : List String) (re : Regexp) (t : Entry)
    (sel : String × FileData → Bool)
    (hsel : ∀ f, sel f = true → f.2.openErr ≠ none ∨ f.2.scanErr ≠ none) :
    (∀ path name data st, (data.openErr ≠ none ∨ data.scanErr ≠ none) →
      searchCallback cfg lib ⟨fileFilter, excludeFilter, some re⟩ path
        (some (.file name data)) none st = .ok (st, none)) ∧
    ∃ rs stats,
      Search cfg lib ⟨fileFilter, excludeFilter, some re⟩ (.ok t) = .ok (rs, stats, none) ∧
      match dropFiles sel lib.Join cfg.searchDir t with
      | some t1 =>
        Search cfg lib ⟨fileFilter, excludeFilter, some re⟩ (.ok t1) = .ok (rs, stats, none)
      | none => rs = [] ∧ stats = ⟨0, 0, 0⟩ := by
  have hfilter : ∀ l : List (String × FileData),
      (l.filter (fun f => !sel f)).filter
          (isScanned cfg lib ⟨fileFilter, excludeFilter, some re⟩) =
        l.filter (isScanned cfg lib ⟨fileFilter, excludeFilter, some re⟩) := by
    intro l
    rw [List.filter_filter]
    apply List.filter_congr
    intro f _
    cases hs : sel f
    · simp
    · simp [not_scanned_of_failing cfg lib ⟨fileFilter, excludeFilter, some re⟩ re rfl f
        (hsel f hs)]
  constructor
  · intro path name data st hfail
    rw [searchCallback_file cfg lib ⟨fileFilter, excludeFilter, some re⟩ re rfl,
      not_scanned_of_failing cfg lib ⟨fileFilter, excludeFilter, some re⟩ re rfl (path, data)
        hfail]
    rfl
  · refine ⟨_, _, Search_eq cfg lib ⟨fileFilter, excludeFilter, some re⟩ re rfl t, ?_⟩
    have hreach := (reached_dropFiles sel lib.Join excludeFilter).1 t cfg.searchDir
    cases hd : dropFiles sel lib.Join cfg.searchDir t with
    | none =>
      rw [hd] at hreach
      have hempty : scannedFiles cfg lib ⟨fileFilter, excludeFilter, some re⟩ t = [] := by
        unfold scannedFiles
        rw [← hfilter, ← hreach]
        rfl
      simp [hempty]
    | some t1 =>
      rw [hd] at hreach
      have hscan : scannedFiles cfg lib ⟨fileFilter, excludeFilter, some re⟩ t1 =
          scannedFiles cfg lib ⟨fileFilter, excludeFilter, some re⟩ t := by
        unfold scannedFiles
        simp only at hreach
        rw [hreach, hfilter]
      simp only
      rw [Search_eq cfg lib ⟨fileFilter, excludeFilter, some re⟩ re rfl t1, hscan]

/-- The witness of C10: removing the two failing files of `failingTree`
leaves the search with its one result and its counters. -/
theorem Search_skips_failing_files_witness :
    (∀ path name data st, (data.openErr ≠ none ∨ data.scanErr ≠ none) →
      searchCallback (exampleConfig 0) plainLib ⟨[], [], some (containing "foo")⟩ path
        (some (.file name data)) none st = .ok (st, none)) ∧
    ∃ rs stats,
      Search (exampleConfig 0) plainLib ⟨[], [], some (containing "foo")⟩ (.ok failingTree) =
        .ok (rs, stats, none) ∧
      Search (exampleConfig 0) plainLib ⟨[], [], some (containing "foo")⟩
          (.ok (.dir "root" [ .file "a.go" ⟨none, ["x", "foo"], none⟩ ] none)) =
        .ok (rs, stats, none) :=
  Search_skips_failing_files (exampleConfig 0) plainLib [] [] (containing "foo") failingTree
    (fun f => decide (f.1 = "root/bad.go" ∨ f.1 = "root/locked.go") &&
      (f.2.openErr.isSome || f.2.scanErr.isSome))
    (by
      intro f hf
      simp only [Bool.and_eq_true, Bool.or_eq_true] at hf
      rcases hf.2 with h | h
      · left
        intro hn
        simp [hn] at h
      · right
        intro hn
        simp [hn] at h)

/-! ## Rendering of context lines -/

/-- C3 (defect in the code). The records `createResult` renders for context
lines carry no line number: for every library and text, a context entry is
the coloured text of the number 0 followed by the line, and with context 2
the match on line 2 of the file "a", "foo" gets the Context "0 a", "2 foo"
where the line number of "a" is 1. -/
theorem context_lines_rendered_with_line_zero :
    (∀ (lib : Lib) (t : String),
      formatLine lib (contextRecord t) = lib.lineNumColor "0" ++ " " ++ lib.normalColor t) ∧
    searchFile (exampleConfig 2) plainLib ⟨[], [], some (containing "foo")⟩ "root/x.go"
        ⟨none, ["a", "foo"], none⟩ =
      .ok ([⟨"root/x.go", 2, "foo", ["0 a", "2 foo"], true⟩], ⟨0, 0, 2⟩, none) := by
  have h0 : Sprint 0 = "0" := by decide
  refine ⟨fun lib t => ?_, rfl⟩
  simp [formatLine, contextRecord, h0]

/-! ## Fatal errors -/

/-- C8 (defect in the code). When `os.Lstat` of the search root fails, the
callback swallows the error: `Search` returns no results, zero counters and a
nil error for every searcher, and `main` exits with status 0. -/
theorem Search_swallows_root_error :
    (∀ (cfg : Config) (lib : Lib) (cs : CodeSearcher) (err : GoError),
      Search cfg lib cs (.error err) = .ok ([], ⟨0, 0, 0⟩, none)) ∧
    mainExitStatus (exampleConfig 0) plainLib
      (.error (.other "lstat root: no such file or directory")) = .ok 0 :=
  ⟨fun _ _ _ _ => rfl, rfl⟩

theorem NewCodeSearcher_filters (cfg : Config) (lib : Lib) :
    (NewCodeSearcher cfg lib).fileFilter = initFileFilter cfg ∧
    (NewCodeSearcher cfg lib).excludeFilter = initExcludeFilter cfg := by
  unfold NewCodeSearcher compilePattern initFilters
  cases lib.Compile (patternExpr cfg) <;> exact ⟨rfl, rfl⟩

/-- C9 (defect in the code). When `regexp.Compile` rejects the expression,
`NewCodeSearcher` still returns a searcher, with a nil pattern and no error;
`searchFile` then opens any file and panics on its first line, and so does
`Search` on a root file that the extension filter accepts. -/
theorem NewCodeSearcher_drops_compile_error (cfg : Config) (lib : Lib) (err : GoError)
    (h : lib.Compile (patternExpr cfg) = .error err) :
    (NewCodeSearcher cfg lib).pattern = none ∧
    (∀ path line rest scanErr,
      searchFile cfg lib (NewCodeSearcher cfg lib) path ⟨none, line :: rest, scanErr⟩ =
        .error .nilDereference) ∧
    (∀ name line rest scanErr, isValidFile (NewCodeSearcher cfg lib) cfg.searchDir = true →
      Search cfg lib (NewCodeSearcher cfg lib)
        (.ok (.file name ⟨none, line :: rest, scanErr⟩)) = .error .nilDereference) := by
  have hp : (NewCodeSearcher cfg lib).pattern = none := by
    unfold NewCodeSearcher compilePattern
    rw [h]
  have hs : ∀ path line rest scanErr,
      searchFile cfg lib (NewCodeSearcher cfg lib) path ⟨none, line :: rest, scanErr⟩ =
        .error .nilDereference := by
    intro path line rest scanErr
    simp [searchFile, scanLines, scanStep, matchLine, hp]
  refine ⟨hp, hs, ?_⟩
  intro name line rest scanErr hv
  simp [Search, WalkDir, walkDir, searchCallback, hv, hs]

/-- The witness of C9: with the pattern `(` in regex mode the searcher is built
with a nil pattern, and the run panics on the first line of the first file
instead of exiting with an error before the traversal. -/
theorem NewCodeSearcher_drops_compile_error_witness :
    ((NewCodeSearcher badRegexConfig plainLib).pattern = none ∧
     (∀ path line rest scanErr,
       searchFile badRegexConfig plainLib (NewCodeSearcher badRegexConfig plainLib) path
         ⟨none, line :: rest, scanErr⟩ = .error .nilDereference) ∧
     (∀ name line rest scanErr,
       isValidFile (NewCodeSearcher badRegexConfig plainLib) badRegexConfig.searchDir = true →
       Search badRegexConfig plainLib (NewCodeSearcher badRegexConfig plainLib)
         (.ok (.file name ⟨none, line :: rest, scanErr⟩)) = .error .nilDereference)) ∧
    mainExitStatus badRegexConfig plainLib
      (.ok (.dir "root" [ .file "a.txt" ⟨none, ["x"], none⟩ ] none)) = .error .nilDereference :=
  ⟨NewCodeSearcher_drops_compile_error badRegexConfig plainLib (.other "missing closing )") rfl,
   rfl⟩

theorem extAux_eq (l acc : List Char) :
    extAux l acc =
      if '.' ∈ l.takeWhile (fun c => c ≠ '/') then
        '.' :: (((l.takeWhile (fun c => c ≠ '/')).takeWhile (fun c => c ≠ '.')).reverse ++ acc)
      else [] := by
  induction l generalizing acc with
  | nil => simp [extAux]
  | cons c rest ih =>
    rw [extAux]
    by_cases h1 : c = '/'
    · simp [h1, List.takeWhile]
    · by_cases h2 : c = '.'
      · subst h2
        simp [List.takeWhile]
      · rw [if_neg h1, if_neg h2, ih]
        have h3 : ¬ ('.' = c) := fun h => h2 h.symm
        simp [List.takeWhile, h1, h2, h3]

theorem Ext_eq_extensionOf (path : String) : Ext path = extensionOf path := by
  unfold Ext extensionOf finalElement
  rw [extAux_eq]
  simp only [List.mem_reverse, List.reverse_reverse, List.append_nil]
  by_cases h : '.' ∈ path.data.reverse.takeWhile (fun c => c ≠ '/')
  · rw [if_pos h, if_pos h]
  · rw [if_neg h, if_neg h]

theorem mem_foldl_setInsert (g : String → String) (xs : List String) (init : List String)
    (k : String) :
    k ∈ xs.foldl (fun m x => setInsert m (g x)) init ↔ k ∈ init ∨ ∃ x ∈ xs, k = g x := by
  induction xs generalizing init with
  | nil => simp
  | cons x xs ih =>
    rw [List.foldl_cons, ih]
    have hins : k ∈ setInsert init (g x) ↔ k ∈ init ∨ k = g x := by
      unfold setInsert
      by_cases hm : g x ∈ init
      · rw [if_pos hm]
        constructor
        · exact Or.inl
        · rintro (h | h)
          · exact h
          · exact h ▸ hm
      · rw [if_neg hm]
        simp
    rw [hins]
    simp only [List.mem_cons, exists_eq_or_imp]
    tauto

theorem splitCommaAux_ne_nil (l cur : List Char) : splitCommaAux l cur ≠ [] := by
  induction l generalizing cur with
  | nil => simp [splitCommaAux]
  | cons c rest ih =>
    rw [splitCommaAux]
    by_cases h : c = ','
    · simp [h]
    · rw [if_neg h]
      exact ih _

/-- C5. `isValidFile` accepts a path exactly when the allow-list is empty or
holds the path's extension (the suffix of the final element from its last dot,
compared as it is); the allow-list of a new searcher is empty exactly when the
extensions option is empty, and otherwise holds a dot followed by each trimmed
comma-separated item.  With extensions `go`: a.go is accepted, a.txt and a.GO
are rejected; with no extensions a.go and a.txt are accepted. -/
theorem isValidFile_iff :
    (∀ (cs : CodeSearcher) (path : String),
      isValidFile cs path = true ↔ cs.fileFilter = [] ∨ extensionOf path ∈ cs.fileFilter) ∧
    (∀ (cfg : Config) (lib : Lib),
      ((NewCodeSearcher cfg lib).fileFilter = [] ↔ cfg.fileExtensions = "") ∧
      ∀ k, k ∈ (NewCodeSearcher cfg lib).fileFilter ↔
        cfg.fileExtensions ≠ "" ∧
          ∃ e ∈ SplitComma cfg.fileExtensions, k = "." ++ TrimSpace e) ∧
    (∀ (cfg : Config) (lib : Lib),
      isValidFile (NewCodeSearcher { cfg with fileExtensions := "go" } lib) "a.go" = true ∧
      isValidFile (NewCodeSearcher { cfg with fileExtensions := "go" } lib) "a.txt" = false ∧
      isValidFile (NewCodeSearcher { cfg with fileExtensions := "go" } lib) "a.GO" = false) ∧
    (∀ (cfg : Config) (lib : Lib),
      isValidFile (NewCodeSearcher { cfg with fileExtensions := "" } lib) "a.go" = true ∧
      isValidFile (NewCodeSearcher { cfg with fileExtensions := "" } lib) "a.txt" = true) := by
  have hmem : ∀ (cfg : Config) (k : String), k ∈ initFileFilter cfg ↔
      cfg.fileExtensions ≠ "" ∧ ∃ e ∈ SplitComma cfg.fileExtensions, k = "." ++ TrimSpace e := by
    intro cfg k
    unfold initFileFilter
    by_cases h : cfg.fileExtensions = ""
    · simp [h]
    · rw [if_pos h, mem_foldl_setInsert (fun ext => "." ++ TrimSpace ext)]
      simp [h]
  refine ⟨?_, ?_, ?_, ?_⟩
  · intro cs path
    unfold isValidFile
    rw [Ext_eq_extensionOf]
    by_cases h : cs.fileFilter = []
    · simp [h]
    · have hl : ¬ cs.fileFilter.length = 0 := fun hl => h (List.length_eq_zero.mp hl)
      simp [h, hl]
  · intro cfg lib
    rw [(NewCodeSearcher_filters cfg lib).1]
    refine ⟨?_, hmem cfg⟩
    constructor
    · intro hnil
      by_contra hne
      obtain ⟨e, rest, he⟩ := List.exists_cons_of_ne_nil
        (show SplitComma cfg.fileExtensions ≠ [] by
          unfold SplitComma
          simpa using splitCommaAux_ne_nil cfg.fileExtensions.data [])
      have : "." ++ TrimSpace e ∈ initFileFilter cfg :=
        (hmem cfg _).mpr ⟨hne, e, by simp [he], rfl⟩
      rw [hnil] at this
      simp at this
    · intro h
      simp [initFileFilter, h]
  · intro cfg lib
    have hf : (NewCodeSearcher { cfg with fileExtensions := "go" } lib).fileFilter = [".go"] := by
      rw [(NewCodeSearcher_filters _ lib).1, initFileFilter]
      dsimp only
      decide
    simp only [isValidFile, hf]
    decide
  · intro cfg lib
    have hf : (NewCodeSearcher { cfg with fileExtensions := "" } lib).fileFilter = [] := by
      rw [(NewCodeSearcher_filters _ lib).1, initFileFilter]
      dsimp only
      decide
    simp [isValidFile, hf]

/-! ## The result assembler -/

/-- C11. For every input, `createResult` returns a record with File = path,
Line = lineNum and Content = line; with context size 0 its Context is empty
whatever the snapshot; with context size > 0 its Context is the renderings of
the snapshot lines in order followed by the rendering of the matched line, so
it has len(snapshot) + 1 entries. -/
theorem createResult_record (cfg : Config) (lib : Lib) (path line : String) (lineNum : Nat)
    (snapshot : List String) :
    (createResult cfg lib path line lineNum snapshot).File = path ∧
    (createResult cfg lib path line lineNum snapshot).Line = lineNum ∧
    (createResult cfg lib path line lineNum snapshot).Content = line ∧
    (cfg.showContext = 0 → (createResult cfg lib path line lineNum snapshot).Context = []) ∧
    (cfg.showContext > 0 →
      (createResult cfg lib path line lineNum snapshot).Context =
        snapshot.map (fun t => formatLine lib (contextRecord t)) ++
          [formatLine lib ⟨path, lineNum, line, [], true⟩] ∧
      (createResult cfg lib path line lineNum snapshot).Context.length =
        snapshot.length + 1) := by
  obtain ⟨h1, h2, h3, _⟩ := createResult_fields cfg lib path line lineNum snapshot
  refine ⟨h1, h2, h3, ?_, ?_⟩
  · intro h0
    have hn : ¬ cfg.showContext > 0 := by omega
    simp [createResult, hn]
  · intro hpos
    have hctx : (createResult cfg lib path line lineNum snapshot).Context =
        snapshot.map (fun t => formatLine lib (contextRecord t)) ++
          [formatLine lib ⟨path, lineNum, line, [], true⟩] := by
      simp [createResult, hpos]
    refine ⟨hctx, ?_⟩
    rw [hctx, List.length_append, List.length_map, List.length_singleton]

/-- The witness of C11: the record for line 3 with the snapshot "a", "b" has an
empty Context with context size 0 and three entries with context size 2. -/
theorem createResult_record_witness :
    (createResult (exampleConfig 0) plainLib "root/x.go" "foo" 3 ["a", "b"]).Context = [] ∧
    (createResult (exampleConfig 2) plainLib "root/x.go" "foo" 3 ["a", "b"]).Context =
      ["0 a", "0 b", "3 foo"] ∧
    (createResult (exampleConfig 2) plainLib "root/x.go" "foo" 3 ["a", "b"]).Context.length =
      3 :=
  ⟨(createResult_record (exampleConfig 0) plainLib "root/x.go" "foo" 3 ["a", "b"]).2.2.2.1 rfl,
   (createResult_record (exampleConfig 2) plainLib "root/x.go" "foo" 3 ["a", "b"]).2.2.2.2
     (by decide)⟩

/-! ## Pruning at the root -/

/-- C17. When the root is a directory whose base name is in the exclude-set,
`Search` returns no results, zero counters and a nil error, whatever the
directory holds and whatever the searcher's pattern. -/
theorem Search_root_excluded (cfg : Config) (lib : Lib) (cs : CodeSearcher) (name : String)
    (listing : List Entry) (readDirErr : Option GoError) (h : name ∈ cs.excludeFilter) :
    Search cfg lib cs (.ok (.dir name listing readDirErr)) = .ok ([], ⟨0, 0, 0⟩, none) := by
  simp [Search, WalkDir, walkDir, searchCallback, h, skipDirToNil]

/-- The witness of C17: `exampleTree` searched with its own name `root`
excluded. -/
theorem Search_root_excluded_witness :
    Search { exampleConfig 0 with excludeDirs := "vendor, root" } plainLib
        (NewCodeSearcher { exampleConfig 0 with excludeDirs := "vendor, root" } plainLib)
        (.ok exampleTree) =
      .ok ([], ⟨0, 0, 0⟩, none) :=
  Search_root_excluded { exampleConfig 0 with excludeDirs := "vendor, root" } plainLib
    (NewCodeSearcher { exampleConfig 0 with excludeDirs := "vendor, root" } plainLib) "root" _ _
    (by decide)

/-! ## The context buffer -/

theorem lastN_length_le (k : Nat) (xs : List String) : (lastN k xs).length ≤ k := by
  unfold lastN
  rw [List.length_drop]
  omega

theorem bufferAfter_length_le (N : Int) (hN : N ≥ 0) (m : String → Bool) (pre : List String) :
    ((bufferAfter N m pre).length : Int) ≤ N := by
  unfold bufferAfter
  by_cases h : N > 0
  · rw [if_pos h]
    have := lastN_length_le N.toNat (trailingRun m pre)
    omega
  · rw [if_neg h]
    simpa using hN

theorem take_succ_eq_snoc (lines : List String) (j : Nat) (hj : j < lines.length) :
    lines.take (j + 1) = lines.take j ++ [lines.getD j ""] := by
  rw [List.take_succ, List.getD_eq_getElem _ _ hj, List.getElem?_eq_getElem hj]
  rfl

/-- C12. For context size N ≥ 0, a compiled pattern, a file and the first k of
its lines: the scan loop reaches a state whose context buffer has at most N
entries, from which the rest of the file is scanned; the buffer is empty
before the first line and right after a matching line; and right after a
non-matching line, with N > 0, it is the previous buffer (without its oldest
entry when it already held N entries) with that line appended. -/
theorem scan_buffer_invariant (cfg : Config) (lib : Lib)
    (fileFilter excludeFilter : List String) (re : Regexp) (path : String)
    (lines : List String) (k : Nat) (hN : cfg.showContext ≥ 0) (hk : k ≤ lines.length) :
    ∃ st,
      scanLines cfg lib ⟨fileFilter, excludeFilter, some re⟩ path scanInit (lines.take k) =
        .ok st ∧
      scanLines cfg lib ⟨fileFilter, excludeFilter, some re⟩ path scanInit lines =
        scanLines cfg lib ⟨fileFilter, excludeFilter, some re⟩ path st (lines.drop k) ∧
      (st.contextBuffer.length : Int) ≤ cfg.showContext ∧
      (k = 0 → st.contextBuffer = []) ∧
      (∀ j, k = j + 1 → re.MatchString (lines.getD j "") = true → st.contextBuffer = []) ∧
      (∀ j, k = j + 1 → re.MatchString (lines.getD j "") = false → cfg.showContext > 0 →
        ∃ st0,
          scanLines cfg lib ⟨fileFilter, excludeFilter, some re⟩ path scanInit (lines.take j) =
            .ok st0 ∧
          st.contextBuffer =
            (if (st0.contextBuffer.length : Int) = cfg.showContext then st0.contextBuffer.drop 1
             else st0.contextBuffer) ++ [lines.getD j ""]) := by
  have hstate := scanLines_stateAfter cfg lib ⟨fileFilter, excludeFilter, some re⟩ re rfl path
  refine ⟨stateAfter cfg lib re.MatchString path (lines.take k), hstate _, ?_, ?_, ?_, ?_, ?_⟩
  · have h := scanLines_append cfg lib ⟨fileFilter, excludeFilter, some re⟩ path
      (lines.take k) (lines.drop k) scanInit
    rw [List.take_append_drop] at h
    rw [h, hstate]
  · exact bufferAfter_length_le cfg.showContext hN re.MatchString _
  · intro h0
    subst h0
    simp [stateAfter, bufferAfter, lastN, trailingRun]
  · intro j hj hm
    subst hj
    show bufferAfter cfg.showContext re.MatchString (lines.take (j + 1)) = []
    rw [take_succ_eq_snoc lines j (by omega), bufferAfter_snoc, if_pos hm]
  · intro j hj hm hpos
    subst hj
    refine ⟨stateAfter cfg lib re.MatchString path (lines.take j), hstate _, ?_⟩
    show bufferAfter cfg.showContext re.MatchString (lines.take (j + 1)) = _
    rw [take_succ_eq_snoc lines j (by omega), bufferAfter_snoc]
    have hle := bufferAfter_length_le cfg.showContext hN re.MatchString (lines.take j)
    simp only [hm, Bool.false_eq_true, if_false, hpos, if_true, stateAfter]
    by_cases he : ((bufferAfter cfg.showContext re.MatchString (lines.take j)).length : Int) =
        cfg.showContext
    · rw [if_pos he, if_pos (by omega)]
    · rw [if_neg he, if_neg (by omega)]

/-- The witness of C12: context size 2 and the file "a", "b", "c", "foo", "d";
after three lines the buffer holds "b", "c" (the oldest entry "a" dropped),
after the match on line 4 it is empty. -/
theorem scan_buffer_invariant_witness :
    (∃ st,
      scanLines (exampleConfig 2) plainLib ⟨[], [], some (containing "foo")⟩ "root/x.go"
        scanInit ["a", "b", "c"] = .ok st ∧
      st.contextBuffer = ["b", "c"]) ∧
    (∃ st,
      scanLines (exampleConfig 2) plainLib ⟨[], [], some (containing "foo")⟩ "root/x.go"
        scanInit ["a", "b", "c", "foo"] = .ok st ∧
      st.contextBuffer = []) := by
  obtain ⟨st, h1, _, _, _, _, h6⟩ := scan_buffer_invariant (exampleConfig 2) plainLib [] []
    (containing "foo") "root/x.go" ["a", "b", "c", "foo", "d"] 3 (by decide) (by decide)
  obtain ⟨st0, h0, hbuf⟩ := h6 2 rfl (by decide) (by decide)
  obtain ⟨st4, h41, _, _, _, h45, _⟩ := scan_buffer_invariant (exampleConfig 2) plainLib [] []
    (containing "foo") "root/x.go" ["a", "b", "c", "foo", "d"] 4 (by decide) (by decide)
  refine ⟨⟨st, h1, ?_⟩, ⟨st4, h41, h45 3 rfl (by decide)⟩⟩
  have e0 : st0 = stateAfter (exampleConfig 2) plainLib (containing "foo").MatchString
      "root/x.go" ["a", "b"] := by
    have := scanLines_stateAfter (exampleConfig 2) plainLib ⟨[], [], some (containing "foo")⟩
      (containing "foo") rfl "root/x.go" ["a", "b"]
    have h0' : scanLines (exampleConfig 2) plainLib ⟨[], [], some (containing "foo")⟩
        "root/x.go" scanInit ["a", "b"] = .ok st0 := h0
    rw [this] at h0'
    cases h0'
    rfl
  rw [hbuf, e0]
  decide

/-! ## Negative context sizes -/

theorem scanStep_of_not_pos (cfg cfg1 : Config) (lib : Lib) (cs : CodeSearcher) (path : String)
    (st : ScanState) (line : String) (h : ¬ cfg.showContext > 0) (h1 : ¬ cfg1.showContext > 0) :
    scanStep cfg lib cs path st line = scanStep cfg1 lib cs path st line := by
  simp [scanStep, createResult, h, h1]

theorem scanLines_of_not_pos (cfg cfg1 : Config) (lib : Lib) (cs : CodeSearcher) (path : String)
    (h : ¬ cfg.showContext > 0) (h1 : ¬ cfg1.showContext > 0) (lines : List String)
    (st : ScanState) :
    scanLines cfg lib cs path st lines = scanLines cfg1 lib cs path st lines := by
  induction lines generalizing st with
  | nil => rfl
  | cons l rest ih =>
    simp only [scanLines, scanStep_of_not_pos cfg cfg1 lib cs path st l h h1]
    cases scanStep cfg1 lib cs path st l with
    | error p => rfl
    | ok st1 => exact ih st1

theorem scanLines_buffer_empty (cfg : Config) (lib : Lib) (cs : CodeSearcher) (path : String)
    (h : ¬ cfg.showContext > 0) (lines : List String) (st st1 : ScanState)
    (hbuf : st.contextBuffer = []) (hres : ∀ r ∈ st.results, r.Context = [])
    (hrun : scanLines cfg lib cs path st lines = .ok st1) :
    st1.contextBuffer = [] ∧ ∀ r ∈ st1.results, r.Context = [] := by
  induction lines generalizing st with
  | nil =>
    simp only [scanLines] at hrun
    cases hrun
    exact ⟨hbuf, hres⟩
  | cons l rest ih =>
    simp only [scanLines] at hrun
    cases hstep : scanStep cfg lib cs path st l with
    | error p => simp [hstep] at hrun
    | ok st2 =>
      rw [hstep] at hrun
      have hst2 : st2.contextBuffer = [] ∧ ∀ r ∈ st2.results, r.Context = [] := by
        unfold scanStep at hstep
        cases hm : matchLine cs l with
        | error p => simp [hm] at hstep
        | ok b =>
          cases b
          · simp [hm, h] at hstep
            subst hstep
            exact ⟨hbuf, hres⟩
          · simp [hm] at hstep
            subst hstep
            refine ⟨rfl, ?_⟩
            intro r hr
            rcases List.mem_append.mp hr with h2 | h2
            · exact hres r h2
            · simp at h2
              subst h2
              simp [createResult, h]
      exact ih st2 hst2.1 hst2.2 hrun

/-- C18. With a negative context size, `searchFile` returns for every file
and searcher exactly what it returns with context size 0 (results with their
File, Line, Content and Context, the line count and the error), it returns
whenever the pattern is compiled, every returned record has an empty Context,
and the context buffer is empty after every prefix of the scan. -/
theorem searchFile_negative_context (cfg : Config) (lib : Lib) (cs : CodeSearcher)
    (path : String) (data : FileData) (hN : cfg.showContext < 0) :
    searchFile cfg lib cs path data =
      searchFile { cfg with showContext := 0 } lib cs path data ∧
    (∀ re, cs.pattern = some re → ∃ out, searchFile cfg lib cs path data = .ok out) ∧
    (∀ rs stats err, searchFile cfg lib cs path data = .ok (rs, stats, err) →
      ∀ r ∈ rs, r.Context = []) ∧
    (∀ pre st, scanLines cfg lib cs path scanInit pre = .ok st → st.contextBuffer = []) := by
  have hneg : ¬ cfg.showContext > 0 := by omega
  have hzero : ¬ ({ cfg with showContext := 0 } : Config).showContext > 0 := by simp
  refine ⟨?_, ?_, ?_, ?_⟩
  · unfold searchFile
    rw [scanLines_of_not_pos cfg { cfg with showContext := 0 } lib cs path hneg hzero]
  · intro re hre
    rw [searchFile_eq cfg lib cs re hre]
    cases data.openErr with
    | some e => exact ⟨_, rfl⟩
    | none => exact ⟨_, rfl⟩
  · intro rs stats err hrun r hr
    unfold searchFile at hrun
    cases ho : data.openErr with
    | some e =>
      simp [ho] at hrun
      rw [hrun.1] at hr
      simp at hr
    | none =>
      simp only [ho] at hrun
      cases hs : scanLines cfg lib cs path scanInit data.lines with
      | error p => simp [hs] at hrun
      | ok st =>
        simp only [hs] at hrun
        cases hrun
        exact (scanLines_buffer_empty cfg lib cs path hneg data.lines scanInit st rfl
          (by intro r hr; simp [scanInit] at hr) hs).2 r hr
  · intro pre st hrun
    exact (scanLines_buffer_empty cfg lib cs path hneg pre scanInit st rfl
      (by intro r hr; simp [scanInit] at hr) hrun).1

/-- The witness of C18: context size -3 on a file with one match. -/
theorem searchFile_negative_context_witness :
    searchFile (exampleConfig (-3)) plainLib ⟨[], [], some (containing "foo")⟩ "root/x.go"
        ⟨none, ["a", "foo"], none⟩ =
      .ok ([⟨"root/x.go", 2, "foo", [], true⟩], ⟨0, 0, 2⟩, none) ∧
    searchFile (exampleConfig (-3)) plainLib ⟨[], [], some (containing "foo")⟩ "root/x.go"
        ⟨none, ["a", "foo"], none⟩ =
      searchFile { exampleConfig (-3) with showContext := 0 } plainLib
        ⟨[], [], some (containing "foo")⟩ "root/x.go" ⟨none, ["a", "foo"], none⟩ :=
  ⟨rfl, (searchFile_negative_context (exampleConfig (-3)) plainLib
    ⟨[], [], some (containing "foo")⟩ "root/x.go" ⟨none, ["a", "foo"], none⟩ (by decide)).1⟩

/-! ## Paths without an extension -/

theorem initFileFilter_mem (cfg : Config) (k : String) :
    k ∈ initFileFilter cfg ↔
      cfg.fileExtensions ≠ "" ∧ ∃ e ∈ SplitComma cfg.fileExtensions, k = "." ++ TrimSpace e := by
  unfold initFileFilter
  by_cases h : cfg.fileExtensions = ""
  · simp [h]
  · rw [if_pos h, mem_foldl_setInsert (fun ext => "." ++ TrimSpace ext)]
    simp [h]

theorem SplitComma_ne_nil (s : String) : SplitComma s ≠ [] := by
  unfold SplitComma
  simpa using splitCommaAux_ne_nil s.data []

theorem initFileFilter_ne_nil (cfg : Config) (h : cfg.fileExtensions ≠ "") :
    initFileFilter cfg ≠ [] := by
  obtain ⟨e, rest, he⟩ := List.exists_cons_of_ne_nil (SplitComma_ne_nil cfg.fileExtensions)
  have hmem : "." ++ TrimSpace e ∈ initFileFilter cfg :=
    (initFileFilter_mem cfg _).mpr ⟨h, e, by simp [he], rfl⟩
  intro hnil
  rw [hnil] at hmem
  simp at hmem

theorem Ext_shape (path : String) :
    (Ext path).data = [] ∨ ∃ rest, (Ext path).data = '.' :: rest ∧ '.' ∉ rest := by
  rw [Ext_eq_extensionOf]
  unfold extensionOf
  by_cases h : '.' ∈ finalElement path.data
  · right
    refine ⟨((finalElement path.data).reverse.takeWhile (fun c => c ≠ '.')).reverse, ?_, ?_⟩
    · simp only [h, if_true]
    · intro hmem
      have h2 := List.mem_takeWhile_imp (List.mem_reverse.mp hmem)
      simp at h2
  · left
    simp only [h, if_false]

theorem Ext_of_no_dot (path : String) (h : '.' ∉ finalElement path.data) : Ext path = "" := by
  rw [Ext_eq_extensionOf]
  unfold extensionOf
  simp only [h, if_false]

/-- C16. With a non-empty extensions option: `isValidFile` rejects every path
whose final element has no dot, since the extension of such a path is empty
while every key of the allow-list starts with a dot; and for an item of the
option that itself contains a dot, the key made from it is in the allow-list
but equals the extension of no path, because an extension is empty or has
exactly one dot, at its start. -/
theorem isValidFile_rejects_dotless (cfg : Config) (lib : Lib)
    (hne : cfg.fileExtensions ≠ "") :
    (∀ path, '.' ∉ finalElement path.data →
      Ext path = "" ∧ isValidFile (NewCodeSearcher cfg lib) path = false) ∧
    (∀ k ∈ (NewCodeSearcher cfg lib).fileFilter, ∃ rest, k.data = '.' :: rest) ∧
    (∀ path, (Ext path).data = [] ∨ ∃ rest, (Ext path).data = '.' :: rest ∧ '.' ∉ rest) ∧
    (∀ item ∈ SplitComma cfg.fileExtensions, '.' ∈ (TrimSpace item).data →
      "." ++ TrimSpace item ∈ (NewCodeSearcher cfg lib).fileFilter ∧
      ∀ path, Ext path ≠ "." ++ TrimSpace item) := by
  have hkeys : ∀ k ∈ (NewCodeSearcher cfg lib).fileFilter, ∃ rest, k.data = '.' :: rest := by
    intro k hk
    rw [(NewCodeSearcher_filters cfg lib).1] at hk
    obtain ⟨_, e, _, rfl⟩ := (initFileFilter_mem cfg k).mp hk
    exact ⟨(TrimSpace e).data, by rw [String.data_append]; rfl⟩
  refine ⟨?_, hkeys, Ext_shape, ?_⟩
  · intro path hdot
    have hext := Ext_of_no_dot path hdot
    refine ⟨hext, ?_⟩
    have hnil : ¬ (NewCodeSearcher cfg lib).fileFilter.length = 0 := by
      rw [(NewCodeSearcher_filters cfg lib).1]
      intro hl
      exact initFileFilter_ne_nil cfg hne (List.length_eq_zero.mp hl)
    have hnot : Ext path ∉ (NewCodeSearcher cfg lib).fileFilter := by
      intro hmem
      obtain ⟨rest, hrest⟩ := hkeys _ hmem
      rw [hext] at hrest
      cases hrest
    simp [isValidFile, hnil, hnot]
  · intro item hitem hdot
    constructor
    · rw [(NewCodeSearcher_filters cfg lib).1]
      exact (initFileFilter_mem cfg _).mpr ⟨hne, item, hitem, rfl⟩
    · intro path heq
      have hdata : (Ext path).data = '.' :: (TrimSpace item).data := by
        rw [heq, String.data_append]
        rfl
      rcases Ext_shape path with h0 | ⟨rest, hrest, hno⟩
      · rw [h0] at hdata
        cases hdata
      · rw [hrest] at hdata
        cases hdata
        exact hno hdot

/-- The witness of C16: with extensions `.go,tar.gz` the allow-list holds the
keys `..go` and `.tar.gz`; `Makefile` is rejected and so are `a.go` and
`a.tar.gz`, whose extensions are `.go` and `.gz`. -/
theorem isValidFile_rejects_dotless_witness :
    (NewCodeSearcher { exampleConfig 0 with fileExtensions := ".go,tar.gz" } plainLib).fileFilter =
      ["..go", ".tar.gz"] ∧
    isValidFile (NewCodeSearcher { exampleConfig 0 with fileExtensions := ".go,tar.gz" } plainLib)
      "Makefile" = false ∧
    isValidFile (NewCodeSearcher { exampleConfig 0 with fileExtensions := ".go,tar.gz" } plainLib)
      "a.go" = false ∧
    isValidFile (NewCodeSearcher { exampleConfig 0 with fileExtensions := ".go,tar.gz" } plainLib)
      "a.tar.gz" = false ∧
    Ext "a.tar.gz" ≠ "." ++ TrimSpace "tar.gz" :=
  ⟨by decide,
   ((isValidFile_rejects_dotless { exampleConfig 0 with fileExtensions := ".go,tar.gz" } plainLib
      (by decide)).1 "Makefile" (by decide)).2,
   by decide, by decide,
   ((isValidFile_rejects_dotless { exampleConfig 0 with fileExtensions := ".go,tar.gz" } plainLib
      (by decide)).2.2.2 "tar.gz" (by decide) (by decide)).2 "a.tar.gz"⟩

/-! ## Patterns -/

theorem parseAtoms_cons_plain (c : Char) (rest : List Char) (hc : c ∉ specialBytes) :
    parseAtoms (c :: rest) = (parseAtoms rest).map (fun as => Atom.lit c :: as) := by
  have h1 : c ≠ '\\' := by
    intro h
    apply hc
    rw [h]
    decide
  have h2 : c ≠ '.' := by
    intro h
    apply hc
    rw [h]
    decide
  rw [parseAtoms.eq_def]
  simp only [h1, h2, hc, if_false]

theorem parseAtoms_cons_escaped (c : Char) (rest : List Char) (hc : c ∈ specialBytes) :
    parseAtoms ('\\' :: c :: rest) = (parseAtoms rest).map (fun as => Atom.lit c :: as) := by
  rw [parseAtoms]
  simp only [if_true, hc]

theorem parseAtoms_quoted (p : List Char) :
    parseAtoms (p.flatMap (fun c => if c ∈ specialBytes then ['\\', c] else [c])) =
      some (p.map Atom.lit) := by
  induction p with
  | nil => rfl
  | cons c rest ih =>
    rw [List.flatMap_cons]
    by_cases hc : c ∈ specialBytes
    · rw [if_pos hc]
      simp only [List.cons_append, List.nil_append]
      rw [parseAtoms_cons_escaped c _ hc, ih]
      rfl
    · rw [if_neg hc]
      simp only [List.cons_append, List.nil_append]
      rw [parseAtoms_cons_plain c _ hc, ih]
      rfl

theorem matchesAt_lit (fold : Bool) (p t : List Char) :
    matchesAt fold (p.map Atom.lit) t = true ↔
      ∃ q, q <+: t ∧ List.Forall₂ (fun c d => (Atom.lit c).accepts fold d = true) p q := by
  induction p generalizing t with
  | nil =>
    simp only [List.map_nil, matchesAt, true_iff]
    exact ⟨[], List.nil_prefix, List.Forall₂.nil⟩
  | cons c p ih =>
    cases t with
    | nil =>
      simp only [List.map_cons, matchesAt, Bool.false_eq_true, false_iff]
      rintro ⟨q, hq, hall⟩
      cases hall with
      | cons _ _ => simp at hq
    | cons d ds =>
      simp only [List.map_cons, matchesAt, Bool.and_eq_true, ih]
      constructor
      · rintro ⟨hacc, q, hq, hall⟩
        exact ⟨d :: q, (List.cons_prefix_cons.mpr ⟨rfl, hq⟩), List.Forall₂.cons hacc hall⟩
      · rintro ⟨q, hq, hall⟩
        cases hall with
        | cons hacc hrest =>
          obtain ⟨hd, hq2⟩ := List.cons_prefix_cons.mp hq
          subst hd
          exact ⟨hacc, _, hq2, hrest⟩

theorem matchesSomewhere_lit (fold : Bool) (p s : List Char) :
    matchesSomewhere fold (p.map Atom.lit) s = true ↔
      ∃ q, q <:+: s ∧ List.Forall₂ (fun c d => (Atom.lit c).accepts fold d = true) p q := by
  unfold matchesSomewhere
  rw [List.any_eq_true]
  constructor
  · rintro ⟨t, ht, hm⟩
    obtain ⟨q, hq, hall⟩ := (matchesAt_lit fold p t).mp hm
    exact ⟨q, List.infix_iff_prefix_suffix.mpr ⟨t, hq, (List.mem_tails _ _).mp ht⟩, hall⟩
  · rintro ⟨q, hq, hall⟩
    obtain ⟨t, hpre, hsuf⟩ := List.infix_iff_prefix_suffix.mp hq
    exact ⟨t, (List.mem_tails _ _).mpr hsuf, (matchesAt_lit fold p t).mpr ⟨q, hpre, hall⟩⟩

theorem forall₂_exact (p q : List Char) :
    List.Forall₂ (fun c d => (Atom.lit c).accepts false d = true) p q ↔ q = p := by
  constructor
  · intro h
    induction h with
    | nil => rfl
    | cons hacc _ ih =>
      simp [Atom.accepts] at hacc
      rw [hacc, ih]
  · rintro rfl
    induction q with
    | nil => exact List.Forall₂.nil
    | cons c q ih => exact List.Forall₂.cons (by simp [Atom.accepts]) ih

theorem matchesSomewhere_exact (p s : List Char) :
    matchesSomewhere false (p.map Atom.lit) s = true ↔ p <:+: s := by
  rw [matchesSomewhere_lit]
  constructor
  · rintro ⟨q, hq, hall⟩
    rw [(forall₂_exact p q).mp hall] at hq
    exact hq
  · intro h
    exact ⟨p, h, (forall₂_exact p p).mpr rfl⟩

theorem quoted_not_flagged (p : List Char) :
    foldFlag.isPrefixOf (p.flatMap (fun c => if c ∈ specialBytes then ['\\', c] else [c])) =
      false := by
  cases p with
  | nil => rfl
  | cons c rest =>
    rw [List.flatMap_cons]
    by_cases hc : c ∈ specialBytes
    · rw [if_pos hc]
      simp [foldFlag, List.isPrefixOf]
    · rw [if_neg hc]
      have h1 : ¬ ('(' = c) := by
        intro h
        apply hc
        rw [← h]
        decide
      simp [foldFlag, List.isPrefixOf, h1]

theorem fragmentMatcher_literal (p : String) :
    fragmentMatcher (QuoteMeta p) =
      some (fun s => matchesSomewhere false (p.data.map Atom.lit) s.data) := by
  unfold fragmentMatcher QuoteMeta
  simp only [quoted_not_flagged, Bool.false_eq_true, if_false, parseAtoms_quoted]

theorem fragmentMatcher_literal_fold (p : String) (hascii : ∀ c ∈ p.data, c.toNat < 128) :
    fragmentMatcher ("(?i)" ++ QuoteMeta p) =
      some (fun s => matchesSomewhere true (p.data.map Atom.lit) s.data) := by
  have hdata : ("(?i)" ++ QuoteMeta p).data =
      foldFlag ++ p.data.flatMap (fun c => if c ∈ specialBytes then ['\\', c] else [c]) := by
    rw [String.data_append]
    rfl
  have hall : (p.data.map Atom.lit).all Atom.isAscii = true := by
    rw [List.all_eq_true]
    intro a ha
    obtain ⟨c, hc, rfl⟩ := List.mem_map.mp ha
    simpa [Atom.isAscii] using hascii c hc
  unfold fragmentMatcher
  rw [hdata]
  have hpre : foldFlag.isPrefixOf
      (foldFlag ++ p.data.flatMap (fun c => if c ∈ specialBytes then ['\\', c] else [c])) =
      true := by
    simp [foldFlag, List.isPrefixOf]
  simp only [hpre, if_true, List.drop_left, parseAtoms_quoted, hall]

theorem fragmentLib_agrees : AgreesOnFragment fragmentLib := by
  intro expr m hm
  refine ⟨⟨m⟩, ?_, fun _ => rfl⟩
  show (match fragmentMatcher expr with
    | some m => Except.ok (⟨m⟩ : Regexp)
    | none => Except.error (GoError.other "outside the modelled syntax")) = _
  rw [hm]

theorem NewCodeSearcher_pattern (cfg : Config) (lib : Lib) (re : Regexp)
    (h : lib.Compile (patternExpr cfg) = .ok re) : (NewCodeSearcher cfg lib).pattern = some re := by
  unfold NewCodeSearcher compilePattern
  rw [h]

theorem compile_literal (lib : Lib) (hlib : AgreesOnFragment lib) (p : String) :
    ∃ re, lib.Compile (QuoteMeta p) = .ok re ∧
      ∀ s : String, re.MatchString s = true ↔ p.data <:+: s.data := by
  obtain ⟨re, hc, hm⟩ := hlib _ _ (fragmentMatcher_literal p)
  refine ⟨re, hc, fun s => ?_⟩
  rw [hm s]
  exact matchesSomewhere_exact p.data s.data

theorem compile_literal_fold (lib : Lib) (hlib : AgreesOnFragment lib) (p : String)
    (hascii : ∀ c ∈ p.data, c.toNat < 128) :
    ∃ re, lib.Compile ("(?i)" ++ QuoteMeta p) = .ok re ∧
      ∀ s : String, re.MatchString s = true ↔
        ∃ q, q <:+: s.data ∧ List.Forall₂ (fun c d => foldEq c d = true) p.data q := by
  obtain ⟨re, hc, hm⟩ := hlib _ _ (fragmentMatcher_literal_fold p hascii)
  refine ⟨re, hc, fun s => ?_⟩
  rw [hm s]
  exact matchesSomewhere_lit true p.data s.data

/-- C14. For a library whose `regexp` behaves as modelled on the fragment:
with regex mode off and case-sensitive on, for every pattern p the searcher
gets a compiled pattern, and the test of `searchFile` on a line s succeeds if
and only if p occurs in s as a contiguous run of characters (so `a.b` matches
`xa.by` and not `axb`); with regex mode on, `a.b` matches `axb` and `a b`,
whatever the case-sensitive flag. -/
theorem literal_versus_regex_mode (lib : Lib) (hlib : AgreesOnFragment lib) (cfg : Config) :
    (∀ p s : String, ∃ re,
      (NewCodeSearcher { cfg with searchPattern := p, useRegex := false, caseSensitive := true }
        lib).pattern = some re ∧
      matchLine (NewCodeSearcher
        { cfg with searchPattern := p, useRegex := false, caseSensitive := true } lib) s =
          .ok (re.MatchString s) ∧
      (re.MatchString s = true ↔ p.data <:+: s.data)) ∧
    (∃ re,
      (NewCodeSearcher { cfg with searchPattern := "a.b", useRegex := false, caseSensitive := true }
        lib).pattern = some re ∧
      re.MatchString "xa.by" = true ∧ re.MatchString "axb" = false) ∧
    (∃ re,
      (NewCodeSearcher { cfg with searchPattern := "a.b", useRegex := true } lib).pattern =
        some re ∧
      re.MatchString "axb" = true ∧ re.MatchString "a b" = true) := by
  have hlit : ∀ p : String, ∃ re,
      (NewCodeSearcher { cfg with searchPattern := p, useRegex := false, caseSensitive := true }
        lib).pattern = some re ∧
      ∀ s : String, re.MatchString s = true ↔ p.data <:+: s.data := by
    intro p
    obtain ⟨re, hc, hm⟩ := compile_literal lib hlib p
    exact ⟨re, NewCodeSearcher_pattern _ lib re (by simpa [patternExpr] using hc), hm⟩
  refine ⟨?_, ?_, ?_⟩
  · intro p s
    obtain ⟨re, hp, hm⟩ := hlit p
    exact ⟨re, hp, by simp [matchLine, hp], hm s⟩
  · obtain ⟨re, hp, hm⟩ := hlit "a.b"
    refine ⟨re, hp, (hm "xa.by").mpr (by decide), ?_⟩
    have hno : ¬ ("a.b".data <:+: "axb".data) := by decide
    cases hv : re.MatchString "axb"
    · rfl
    · exact absurd ((hm "axb").mp hv) hno
  · rcases Bool.eq_false_or_eq_true cfg.caseSensitive with hcs | hcs
    · obtain ⟨re, hc, hm⟩ := hlib "a.b"
        (fun s => matchesSomewhere false [.lit 'a', .anyNotNL, .lit 'b'] s.data) rfl
      have hexpr : patternExpr { cfg with searchPattern := "a.b", useRegex := true } =
          "a.b" := by
        simp [patternExpr, hcs]
      refine ⟨re, NewCodeSearcher_pattern _ lib re (by rw [hexpr]; exact hc), ?_, ?_⟩
      · rw [hm]
        rfl
      · rw [hm]
        rfl
    · obtain ⟨re, hc, hm⟩ := hlib "(?i)a.b"
        (fun s => matchesSomewhere true [.lit 'a', .anyNotNL, .lit 'b'] s.data) rfl
      have hexpr : patternExpr { cfg with searchPattern := "a.b", useRegex := true } =
          "(?i)a.b" := by
        simp [patternExpr, hcs]
      refine ⟨re, NewCodeSearcher_pattern _ lib re (by rw [hexpr]; exact hc), ?_, ?_⟩
      · rw [hm]
        rfl
      · rw [hm]
        rfl

/-- The witness of C14: the library of the worked examples agrees with the
model, and with it the literal pattern `a.b` is compiled to a pattern that
matches `xa.by` and not `axb`. -/
theorem literal_versus_regex_mode_witness :
    ∃ re,
      (NewCodeSearcher
        { exampleConfig 0 with searchPattern := "a.b", useRegex := false, caseSensitive := true }
        fragmentLib).pattern = some re ∧
      re.MatchString "xa.by" = true ∧ re.MatchString "axb" = false :=
  (literal_versus_regex_mode fragmentLib fragmentLib_agrees (exampleConfig 0)).2.1

theorem patternExpr_eq (cfg : Config) :
    patternExpr cfg = (if cfg.caseSensitive then "" else "(?i)") ++ basePattern cfg := by
  unfold patternExpr basePattern
  cases cfg.caseSensitive <;> cases cfg.useRegex <;> simp

theorem patternExpr_Foo (cfg : Config) (b : Bool) :
    patternExpr { cfg with searchPattern := "Foo", caseSensitive := b } =
      (if b then "" else "(?i)") ++ QuoteMeta "Foo" := by
  have hq : QuoteMeta "Foo" = "Foo" := by decide
  rw [patternExpr_eq, basePattern]
  cases cfg.useRegex <;> simp [hq]

/-- C15. The expression handed to `regexp.Compile` is the escaped or raw
pattern, with `(?i)` in front exactly when case-sensitive is false; the line
is handed to `MatchString` as it is.  For a library whose `regexp` behaves as
modelled on the fragment, the pattern `Foo` with case-sensitive off matches
every line containing `foo`, and with case-sensitive on it matches no line in
which `Foo` does not occur. -/
theorem case_sensitivity (lib : Lib) (hlib : AgreesOnFragment lib) (cfg : Config) :
    patternExpr cfg = (if cfg.caseSensitive then "" else "(?i)") ++ basePattern cfg ∧
    (patternExpr cfg = "(?i)" ++ basePattern cfg ↔ cfg.caseSensitive = false) ∧
    (NewCodeSearcher cfg lib).pattern =
      (match lib.Compile (patternExpr cfg) with
        | .ok re => some re
        | .error _ => none) ∧
    (∀ re line, (NewCodeSearcher cfg lib).pattern = some re →
      matchLine (NewCodeSearcher cfg lib) line = .ok (re.MatchString line)) ∧
    (∃ re,
      (NewCodeSearcher { cfg with searchPattern := "Foo", caseSensitive := false } lib).pattern =
        some re ∧
      ∀ s : String, "foo".data <:+: s.data → re.MatchString s = true) ∧
    (∃ re,
      (NewCodeSearcher { cfg with searchPattern := "Foo", caseSensitive := true } lib).pattern =
        some re ∧
      ∀ s : String, ¬ "Foo".data <:+: s.data → re.MatchString s = false) := by
  refine ⟨patternExpr_eq cfg, ?_, ?_, ?_, ?_, ?_⟩
  · rw [patternExpr_eq]
    cases hcs : cfg.caseSensitive
    · simp
    · simp only [if_true]
      constructor
      swap
      · intro hf
        cases hf
      intro h
      have hlen := congrArg String.length h
      simp only [String.length_append] at hlen
      have h4 : "(?i)".length = 4 := by decide
      have h0 : "".length = 0 := by decide
      omega
  · unfold NewCodeSearcher compilePattern
    cases lib.Compile (patternExpr cfg) <;> rfl
  · intro re line hre
    simp [matchLine, hre]
  · obtain ⟨re, hc, hm⟩ := compile_literal_fold lib hlib "Foo" (by decide)
    refine ⟨re, NewCodeSearcher_pattern _ lib re ?_, ?_⟩
    · rw [patternExpr_Foo cfg false]
      exact hc
    · intro s hs
      exact (hm s).mpr ⟨"foo".data, hs,
        List.Forall₂.cons (by decide) (List.Forall₂.cons (by decide)
          (List.Forall₂.cons (by decide) List.Forall₂.nil))⟩
  · obtain ⟨re, hc, hm⟩ := compile_literal lib hlib "Foo"
    refine ⟨re, NewCodeSearcher_pattern _ lib re ?_, ?_⟩
    · rw [patternExpr_Foo cfg true]
      simpa using hc
    · intro s hs
      cases hv : re.MatchString s
      · rfl
      · exact absurd ((hm s).mp hv) hs

/-- The witness of C15: with the library of the worked examples, `Foo` matches
the line `a foo b` when case-sensitive is off and not when it is on. -/
theorem case_sensitivity_witness :
    (∃ re,
      (NewCodeSearcher { exampleConfig 0 with searchPattern := "Foo", caseSensitive := false }
        fragmentLib).pattern = some re ∧ re.MatchString "a foo b" = true) ∧
    (∃ re,
      (NewCodeSearcher { exampleConfig 0 with searchPattern := "Foo", caseSensitive := true }
        fragmentLib).pattern = some re ∧ re.MatchString "a foo b" = false) := by
  obtain ⟨_, _, _, _, ⟨re1, h1, m1⟩, ⟨re2, h2, m2⟩⟩ :=
    case_sensitivity fragmentLib fragmentLib_agrees (exampleConfig 0)
  exact ⟨⟨re1, h1, m1 "a foo b" (by decide)⟩, ⟨re2, h2, m2 "a foo b" (by decide)⟩⟩

/-! ## The end-to-end scenario -/

theorem Ext_of_suffix (pre : String) (name ext : String)
    (h : extAux name.data.reverse [] = ext.data) (hne : ext.data ≠ []) :
    Ext (pre ++ name) = ext := by
  have haux : ∀ (l acc tail : List Char), extAux l acc ≠ [] →
      extAux (l ++ tail) acc = extAux l acc := by
    intro l
    induction l with
    | nil =>
      intro acc tail hnz
      simp [extAux] at hnz
    | cons c rest ih =>
      intro acc tail hnz
      rw [List.cons_append, extAux, extAux]
      rw [extAux] at hnz
      by_cases h1 : c = '/'
      · simp [h1] at hnz
      · by_cases h2 : c = '.'
        · simp [h1, h2]
        · simp only [h1, h2, if_false] at hnz ⊢
          exact ih _ _ hnz
  unfold Ext
  rw [String.data_append, List.reverse_append, haux _ _ _ (by rw [h]; exact hne), h]

theorem expectedResults_scenario (cfg : Config) (lib : Lib) (m : String → Bool) (path : String)
    (h0 : cfg.showContext = 0) (h1 : m "hello" = false) (h2 : m "world foo" = true) :
    expectedResults cfg lib m path ["hello", "world foo"] =
      [⟨path, 2, "world foo", [], true⟩] := by
  have hr : List.range 2 = [0, 1] := by decide
  have hn : ¬ cfg.showContext > 0 := by omega
  simp [expectedResults, hr, h1, h2, createResult, hn]

/-- C13. For a library whose `regexp` behaves as modelled on the fragment and
whose `Join` ends the joined path with the entry name: on a root directory
holding exactly x.go ("hello", "world foo") and y.md ("foo"), the flags
pattern `foo`, extensions `go`, context 0 and the other defaults give one
result, with File the joined path of x.go, Line 2, Content "world foo", and the
stats FilesScanned = 1, MatchesFound = 1, TotalLines = 2; x.go is the only
scanned file and the filter rejects the path of y.md. -/
theorem end_to_end_scenario (lib : Lib) (hlib : AgreesOnFragment lib) (dir name : String)
    (hx : ∃ pre, lib.Join dir "x.go" = pre ++ "x.go")
    (hy : ∃ pre, lib.Join dir "y.md" = pre ++ "y.md") :
    Search (scenarioConfig dir) lib (NewCodeSearcher (scenarioConfig dir) lib)
        (.ok (scenarioTree name)) =
      .ok ([⟨lib.Join dir "x.go", 2, "world foo", [], true⟩],
           { FilesScanned := 1, MatchesFound := 1, TotalLines := 2 }, none) ∧
    scannedFiles (scenarioConfig dir) lib (NewCodeSearcher (scenarioConfig dir) lib)
        (scenarioTree name) =
      [(lib.Join dir "x.go", ⟨none, ["hello", "world foo"], none⟩)] ∧
    isValidFile (NewCodeSearcher (scenarioConfig dir) lib) (lib.Join dir "y.md") = false := by
  obtain ⟨re, hc, hm⟩ := hlib "(?i)foo"
    (fun s => matchesSomewhere true [.lit 'f', .lit 'o', .lit 'o'] s.data) rfl
  have hexpr : patternExpr (scenarioConfig dir) = "(?i)foo" := by
    simp [patternExpr, scenarioConfig]
    decide
  have hpat : (NewCodeSearcher (scenarioConfig dir) lib).pattern = some re :=
    NewCodeSearcher_pattern _ lib re (by rw [hexpr]; exact hc)
  have hff : (NewCodeSearcher (scenarioConfig dir) lib).fileFilter = [".go"] := by
    rw [(NewCodeSearcher_filters _ lib).1]
    simp only [initFileFilter, scenarioConfig]
    decide
  have hef : (NewCodeSearcher (scenarioConfig dir) lib).excludeFilter = [] := by
    rw [(NewCodeSearcher_filters _ lib).2]
    simp [initExcludeFilter, scenarioConfig]
  have h1 : re.MatchString "hello" = false := by
    rw [hm]
    rfl
  have h2 : re.MatchString "world foo" = true := by
    rw [hm]
    rfl
  obtain ⟨px, hpx⟩ := hx
  obtain ⟨py, hpy⟩ := hy
  have hvx : isValidFile (NewCodeSearcher (scenarioConfig dir) lib) (lib.Join dir "x.go") =
      true := by
    have he : Ext (lib.Join dir "x.go") = ".go" := by
      rw [hpx]
      exact Ext_of_suffix px "x.go" ".go" (by decide) (by decide)
    simp [isValidFile, hff, he]
  have hvy : isValidFile (NewCodeSearcher (scenarioConfig dir) lib) (lib.Join dir "y.md") =
      false := by
    have he : Ext (lib.Join dir "y.md") = ".md" := by
      rw [hpy]
      exact Ext_of_suffix py "y.md" ".md" (by decide) (by decide)
    simp only [isValidFile, hff, he]
    decide
  have hsx : searchFile (scenarioConfig dir) lib (NewCodeSearcher (scenarioConfig dir) lib)
      (lib.Join dir "x.go") ⟨none, ["hello", "world foo"], none⟩ =
      .ok ([⟨lib.Join dir "x.go", 2, "world foo", [], true⟩], ⟨0, 0, 2⟩, none) := by
    rw [searchFile_eq _ lib _ re hpat]
    simp only
    rw [expectedResults_scenario _ lib re.MatchString _ rfl h1 h2]
    rfl
  have hscanned : scannedFiles (scenarioConfig dir) lib
      (NewCodeSearcher (scenarioConfig dir) lib) (scenarioTree name) =
      [(lib.Join dir "x.go", ⟨none, ["hello", "world foo"], none⟩)] := by
    have hdir : (scenarioConfig dir).searchDir = dir := rfl
    simp [scannedFiles, scenarioTree, reachedFiles, reachedFilesList, hef, Entry.Name, hdir,
      List.filter, isScanned, hvx, hvy, scansCleanly, hsx]
  refine ⟨?_, hscanned, hvy⟩
  rw [Search_eq _ lib _ re hpat, hscanned]
  simp [searchFileResults, searchFileLines, hsx]

/-- The witness of C13: the scenario with the library of the worked examples,
the root `root` and its entries joined with a slash. -/
theorem end_to_end_scenario_witness :
    Search (scenarioConfig "root") fragmentLib (NewCodeSearcher (scenarioConfig "root") fragmentLib)
        (.ok (scenarioTree "root")) =
      .ok ([⟨"root/x.go", 2, "world foo", [], true⟩],
           { FilesScanned := 1, MatchesFound := 1, TotalLines := 2 }, none) :=
  (end_to_end_scenario fragmentLib fragmentLib_agrees "root" "root"
    ⟨"root/", rfl⟩ ⟨"root/", rfl⟩).1

end GrepCode
